import Mathlib

/-!
Verification of `panel/layout.py` (layout containers of the panel
dashboarding toolkit): list-based containers (`ListPanel`), tabbed
containers (`Tabs`), the 2D grid container (`GridSpec`), and the generic
child-model reconciliation algorithm (`Panel._get_objects`).

The Python code is shallowly embedded: Python lists become `List`,
Python ints become `Int` (or `Nat` where the source only ever sees
non-negative values), `OrderedDict` becomes an association list with
unique keys, raised exceptions become `Except`/`Option` failures, and
numpy occupancy arrays become coordinate functions together with an
explicit out-of-bounds check.  Child panes are identified by a numeric
id standing for Python object identity.
-/

namespace PanelLayout

/-! ### Python list primitives

Helpers modelling the exact semantics of CPython list indexing used by
the source: `list[i] = v` and `list.pop(i)` accept indices in
`[-len, len)`, negative indices counting from the end, and raise
`IndexError` otherwise (modelled as `none`). -/

/-- Python `lst[i] = v`: valid for `-len ≤ i < len`, `none` models `IndexError`. -/
def pySet {α : Type} (l : List α) (i : Int) (v : α) : Option (List α) :=
  if 0 ≤ i ∧ i < (l.length : Int) then
    some (l.set i.toNat v)
  else if -(l.length : Int) ≤ i ∧ i < 0 then
    some (l.set (i + l.length).toNat v)
  else
    none

/-- Python `lst[i]` read with the same index rules as `pySet`. -/
def pyGet {α : Type} (l : List α) (i : Int) : Option α :=
  if 0 ≤ i ∧ i < (l.length : Int) then
    l.get? i.toNat
  else if -(l.length : Int) ≤ i ∧ i < 0 then
    l.get? (i + l.length).toNat
  else
    none

/-- Python `lst.pop(i)`: removes the element at index `i` (negative indices
count from the end); `none` models `IndexError`. -/
def pyPop {α : Type} (l : List α) (i : Int) : Option (List α) :=
  if 0 ≤ i ∧ i < (l.length : Int) then
    some (l.eraseIdx i.toNat)
  else if -(l.length : Int) ≤ i ∧ i < 0 then
    some (l.eraseIdx (i + l.length).toNat)
  else
    none

/-- Python `lst.insert(i, v)`: clips the position into `[0, len]`
(negative indices count from the end, clipped at 0). -/
def pyInsert {α : Type} (l : List α) (i : Int) (v : α) : List α :=
  if 0 ≤ i then
    l.insertIdx (min i.toNat l.length) v
  else
    l.insertIdx (i + l.length).toNat v

/-- `b - a` consecutive integers starting at `a`. -/
def intRangeGo : Nat → Int → List Int
  | 0, _ => []
  | n + 1, a => a :: intRangeGo n (a + 1)

/-- Python `range(a, b)` over integers (empty when `a ≥ b`). -/
def intRange (a b : Int) : List Int :=
  intRangeGo (b - a).toNat a

/-- Index of the first occurrence of `x` (Python `lst.index(x)`), as `Option`. -/
def firstIdx {α : Type} [DecidableEq α] : List α → α → Option Nat
  | [], _ => none
  | y :: ys, x => if y = x then some 0 else (firstIdx ys x).map (fun i => i + 1)

/-- Sequences a list of options: `some` of the values when all are
present, `none` as soon as one is missing. -/
def seqOpt {α : Type} : List (Option α) → Option (List α)
  | [] => some []
  | none :: _ => none
  | some a :: rest =>
      match seqOpt rest with
      | some l => some (a :: l)
      | none => none

/-! ### `ListPanel` children and mutation API

Child objects of a list container.  `panel` (the pane-wrapping function,
whose code is outside this file's source) is, per the spec, idempotent
on an already-wrapped component and wraps a raw list of content into a
fresh layout component; both cases are representable below. -/

/-- A child object of a list container, identified by a numeric id
(Python object identity). -/
structure LObj : Type where
  id : Nat
deriving DecidableEq, Repr

/-- Modelled from the spec: the wrapping function `wrap(content) -> Component`
is idempotent on an already-wrapped component, so on the child objects of
our model it is the identity. -/
def panelWrap (o : LObj) : LObj := o

/-- Right-hand side of a `__setitem__` call: either a Python list of
content or a single (non-list) content object. -/
inductive RHS : Type where
  | list : List LObj → RHS
  | scalar : LObj → RHS
deriving DecidableEq, Repr

/-- An index argument to `__setitem__`: an integer or a slice `a:b`
(`none` bound means omitted). -/
inductive LIdx : Type where
  | int : Int → LIdx
  | slice : Option Int → Option Int → LIdx
deriving DecidableEq, Repr

/-- The wrapped pane a non-slice `__setitem__` stores: the code wraps the
right-hand side as a single pane (`panes = [panes]` then `panel(pane)`).
`wrapRaw` is the external `panel` function's behaviour on a raw Python
list given as content (it builds a fresh layout component from it). -/
def rhsAsSingle (wrapRaw : List LObj → LObj) (r : RHS) : LObj :=
  match r with
  | .scalar o => panelWrap o
  | .list xs => wrapRaw xs

/-- The assignment loop
`for i, pane in zip(range(start, end), panes): new_objects[i] = panel(pane)`:
sequential Python list writes into the scratch list (whose slots may be
`None`, from `[None]*expected`), failing (IndexError) on the first
invalid index. -/
def setLoop (base : List (Option LObj)) (idxs : List Int) (panes : List LObj) :
    Option (List (Option LObj)) :=
  match idxs, panes with
  | i :: is, p :: ps =>
      match pySet base i (some (panelWrap p)) with
      | some base1 => setLoop base1 is ps
      | none => none
  | _, _ => some base

/-- Runs the assignment loop and turns the scratch list back into an
object list (every slot is filled in all reachable calls; a surviving
`None` placeholder would be stored by Python as-is, which no claim
exercises, and is reported as an error here). -/
def finishLoop (base : List (Option LObj)) (idxs : List Int)
    (panes : List LObj) : Except String (List LObj) :=
  match setLoop base idxs panes with
  | none => .error "IndexError: list assignment index out of range"
  | some l =>
      match seqOpt l with
      | some objs => .ok objs
      | none => .error "unfilled placeholder"

/-- `ListPanel.__setitem__(index, panes)` (layout.py lines 171-205).
Returns the replacement object list, or an error when the call raises;
the source assigns `self.objects` only after the loop completes, so an
error leaves the container unchanged. -/
def lpSetitem (wrapRaw : List LObj → LObj) (objects : List LObj)
    (index : LIdx) (panes : RHS) : Except String (List LObj) :=
  match index with
  | .int i =>
      if i > (objects.length : Int) then
        .error "IndexError: index out of bounds"
      else
        finishLoop (objects.map some) (intRange i (i + 1))
          [rhsAsSingle wrapRaw panes]
  | .slice a b =>
      let start : Int := (a.getD 0)
      let stop : Int := (b.getD (objects.length : Int))
      if a = none ∧ b = none then
        match panes with
        | .scalar _ => .error "IndexError: expected a list of objects"
        | .list xs =>
            finishLoop (List.replicate xs.length none)
              (intRange 0 xs.length) (xs.map panelWrap)
      else if stop > (objects.length : Int) then
        .error "IndexError: index out of bounds"
      else
        let expected : Int := stop - start
        match panes with
        | .scalar _ => .error "IndexError: expected a list of objects"
        | .list xs =>
            if (xs.length : Int) ≠ expected then
              .error "IndexError: expected a list matching the slice"
            else
              finishLoop (objects.map some) (intRange start stop)
                (xs.map panelWrap)

/-- The object list after a `__setitem__` call: the new list when the call
succeeds, the old one when it raises (the source only assigns
`self.objects` after all checks and writes). -/
def applyLpSetitem (wrapRaw : List LObj → LObj) (objects : List LObj)
    (index : LIdx) (panes : RHS) : List LObj :=
  match lpSetitem wrapRaw objects index panes with
  | .ok l => l
  | .error _ => objects

/-- Argument to `ListPanel.pop`: a child object or an integer position. -/
inductive PopArg : Type where
  | obj : LObj → PopArg
  | idx : Int → PopArg
deriving DecidableEq, Repr

/-- `ListPanel.pop(index)` (layout.py lines 228-233): when the argument
equals an existing element, its first position is used; otherwise the
argument must be an integer position (`list.pop` raises `TypeError` on a
non-integer argument, and `IndexError` when out of range). -/
def lpPop (objects : List LObj) (arg : PopArg) : Except String (List LObj) :=
  match arg with
  | .obj p =>
      match firstIdx objects p with
      | some i =>
          match pyPop objects (i : Int) with
          | some l => .ok l
          | none => .error "IndexError"
      | none => .error "TypeError: pop argument must be an integer"
  | .idx i =>
      match pyPop objects i with
      | some l => .ok l
      | none => .error "IndexError: pop index out of range"

/-! ### `Tabs`: label-synchronized list container

Children of a tabbed container carry a display name.  Items may be
supplied as `(label, content)` tuples or as bare content. -/

/-- A tab child: numeric id (Python object identity) plus its `name`
parameter. -/
structure TObj : Type where
  id : Nat
  name : String
deriving DecidableEq, Repr

/-- An item handed to the tabs mutation API: a `(label, content)` tuple or
bare content (already a component; raw non-component content is wrapped
by the external `panel` function before anything modelled here looks at
it). -/
inductive Item : Type where
  | named : String → TObj → Item
  | bare : TObj → Item
deriving DecidableEq, Repr

/-- `Tabs._to_object_and_name` (layout.py lines 291-299): a tuple supplies
the label and renames the pane; bare content uses its own `name`
attribute (components always have one). -/
def toObjectAndName (it : Item) : TObj × String :=
  match it with
  | .named n o => ({ o with name := n }, n)
  | .bare o => (o, o.name)

/-- `Tabs._to_objects_and_names` (layout.py lines 301-307). -/
def toObjectsAndNames (items : List Item) : List TObj × List String :=
  (items.map (fun it => (toObjectAndName it).1),
   items.map (fun it => (toObjectAndName it).2))

/-- `Tabs._update_names` (layout.py lines 313-324): the label
re-synchronization routine watching `objects`.  Called with the event's
old and new object lists and the current label list; returns the label
list it leaves behind (`none` models the raise when `self._names[index]`
is out of range, in which case `_names` is left unchanged). -/
def updateNames (old newObjs : List TObj) (names : List String) :
    Option (List String) :=
  if newObjs.length = names.length then
    some names
  else
    seqOpt (newObjs.map (fun o =>
      match firstIdx old o with
      | some i => names.get? i
      | none => some o.name))

/-- State of a tabbed container: the child list and the parallel label
list `_names`. -/
structure TabsState : Type where
  objects : List TObj
  names : List String
deriving DecidableEq, Repr

/-- `Tabs(*items)` construction (layout.py lines 283-289). -/
def mkTabs (items : List Item) : TabsState :=
  { objects := (toObjectsAndNames items).1, names := (toObjectsAndNames items).2 }

/-- `Tabs.append` (layout.py lines 396-401). -/
def tabsAppend (st : TabsState) (it : Item) : Except String TabsState :=
  let (o, n) := toObjectAndName it
  .ok { objects := st.objects ++ [o], names := st.names ++ [n] }

/-- `Tabs.clear` (layout.py lines 403-405). -/
def tabsClear (_st : TabsState) : Except String TabsState :=
  .ok { objects := [], names := [] }

/-- `Tabs.extend` (layout.py lines 407-412). -/
def tabsExtend (st : TabsState) (items : List Item) : Except String TabsState :=
  let (os, ns) := toObjectsAndNames items
  .ok { objects := st.objects ++ os, names := st.names ++ ns }

/-- `Tabs.insert` (layout.py lines 414-419). -/
def tabsInsert (st : TabsState) (i : Int) (it : Item) : Except String TabsState :=
  let (o, n) := toObjectAndName it
  .ok { objects := pyInsert st.objects i o, names := pyInsert st.names i n }

/-- Argument to `Tabs.pop`: a child object or an integer position. -/
inductive TPopArg : Type where
  | obj : TObj → TPopArg
  | idx : Int → TPopArg
deriving DecidableEq, Repr

/-- `Tabs.pop` (layout.py lines 421-427): resolves an object argument to
its first position, pops both lists at that position.  Any raise happens
before `self.objects` is reassigned, leaving the state unchanged. -/
def tabsPop (st : TabsState) (arg : TPopArg) : Except String TabsState :=
  match arg with
  | .obj p =>
      match firstIdx st.objects p with
      | some i =>
          match pyPop st.objects (i : Int), pyPop st.names (i : Int) with
          | some os, some ns => .ok { objects := os, names := ns }
          | _, _ => .error "IndexError"
      | none => .error "TypeError: pop argument must be an integer"
  | .idx i =>
      match pyPop st.objects i, pyPop st.names i with
      | some os, some ns => .ok { objects := os, names := ns }
      | _, _ => .error "IndexError: pop index out of range"

/-- `Tabs.remove` (layout.py lines 429-435): `list.remove` drops the first
occurrence (raising `ValueError` when absent, before any label change),
then the label at the same position is popped. -/
def tabsRemove (st : TabsState) (p : TObj) : Except String TabsState :=
  match firstIdx st.objects p with
  | some i =>
      match pyPop st.names (i : Int) with
      | some ns => .ok { objects := st.objects.eraseIdx i, names := ns }
      | none => .error "IndexError"
  | none => .error "ValueError: list.remove(x): x not in list"

/-- `Tabs.reverse` (layout.py lines 437-441). -/
def tabsReverse (st : TabsState) : Except String TabsState :=
  .ok { objects := st.objects.reverse, names := st.names.reverse }

/-- The `Tabs.__setitem__` assignment loop
`for i, pane in zip(range(start, end), panes): new_objects[i], self._names[i] = self._to_object_and_name(pane)`:
per iteration the object slot is written first, then the label slot;
a failing write raises (and, because an invalid index can only occur at
the first iteration, leaves both lists as they were). -/
def tabsSetLoop (baseO : List (Option TObj)) (baseN : List (Option String))
    (idxs : List Int) (items : List Item) :
    Option (List (Option TObj) × List (Option String)) :=
  match idxs, items with
  | i :: is, it :: its =>
      let (o, n) := toObjectAndName it
      match pySet baseO i (some o) with
      | none => none
      | some bO =>
          match pySet baseN i (some n) with
          | none => none
          | some bN => tabsSetLoop bO bN is its
  | _, _ => some (baseO, baseN)

/-- Converts the scratch pair back into a tabs state (all slots are filled
in every reachable success path). -/
def tabsFinishLoop (baseO : List (Option TObj)) (baseN : List (Option String))
    (idxs : List Int) (items : List Item) : Except String TabsState :=
  match tabsSetLoop baseO baseN idxs items with
  | none => .error "IndexError: list assignment index out of range"
  | some (bO, bN) =>
      match seqOpt bO, seqOpt bN with
      | some os, some ns => .ok { objects := os, names := ns }
      | _, _ => .error "unfilled placeholder"

/-- Right-hand side of a tabs `__setitem__`: a Python list of items or a
single non-list item. -/
inductive TRhs : Type where
  | list : List Item → TRhs
  | scalar : Item → TRhs
deriving DecidableEq, Repr

/-- `Tabs.__setitem__` with an integer index (layout.py lines 360-368,
392-394): the right-hand side becomes the single assigned item
(`panes = [panes]`; a raw-list right-hand side is wrapped by the external
`panel` into a fresh bare component before reaching this model, so an
arbitrary `Item` covers it). -/
def tabsSetInt (st : TabsState) (i : Int) (it : Item) :
    Except String TabsState :=
  if i > (st.objects.length : Int) then
    .error "IndexError: index out of bounds"
  else
    tabsFinishLoop (st.objects.map some) (st.names.map some)
      (intRange i (i + 1)) [it]

/-- `Tabs.__setitem__` with a slice index (layout.py lines 369-394).  For
the fully-open slice the source replaces `self._names` by `[None]*len(panes)`
before the loop; for bounded slices it writes labels in place. -/
def tabsSetSlice (st : TabsState) (a b : Option Int) (panes : TRhs) :
    Except String TabsState :=
  let start : Int := (a.getD 0)
  let stop : Int := (b.getD (st.objects.length : Int))
  if a = none ∧ b = none then
    match panes with
    | .scalar _ => .error "IndexError: expected a list of objects"
    | .list its =>
        tabsFinishLoop (List.replicate its.length none)
          (List.replicate its.length none) (intRange 0 its.length) its
  else
    let expected : Int := stop - start
    if stop > (st.objects.length : Int) then
      .error "IndexError: index out of bounds"
    else
      match panes with
      | .scalar _ => .error "IndexError: expected a list of objects"
      | .list its =>
          if (its.length : Int) ≠ expected then
            .error "IndexError: expected a list matching the slice"
          else
            tabsFinishLoop (st.objects.map some) (st.names.map some)
              (intRange start stop) its

/-- One call of the public tabs mutation API. -/
inductive TOp : Type where
  | append : Item → TOp
  | insert : Int → Item → TOp
  | pop : TPopArg → TOp
  | remove : TObj → TOp
  | reverse : TOp
  | extend : List Item → TOp
  | clear : TOp
  | setInt : Int → Item → TOp
  | setSlice : Option Int → Option Int → TRhs → TOp
deriving Repr

/-- Runs one mutation call; a call that raises leaves the state unchanged
(every raising path in the source occurs before `self.objects` is
reassigned and before any label-list change, as modelled above). -/
def tabsStep (st : TabsState) (op : TOp) : TabsState :=
  let res :=
    match op with
    | .append it => tabsAppend st it
    | .insert i it => tabsInsert st i it
    | .pop a => tabsPop st a
    | .remove p => tabsRemove st p
    | .reverse => tabsReverse st
    | .extend its => tabsExtend st its
    | .clear => tabsClear st
    | .setInt i r => tabsSetInt st i r
    | .setSlice a b r => tabsSetSlice st a b r
  match res with
  | .ok st1 => st1
  | .error _ => st

/-- Runs a finite sequence of mutation calls. -/
def tabsRun (st : TabsState) (ops : List TOp) : TabsState :=
  ops.foldl tabsStep st

/-! ### `GridSpec`: keyed-by-region grid container

Region keys are 4-tuples `(y0, x0, y1, x1)` of optional integer bounds;
`objects` is an ordered mapping (association list with unique keys) from
region key to child.  The numpy occupancy arrays of the source are
modelled as coordinate functions together with an explicit out-of-bounds
check for the fill loop's scalar writes (numpy raises `IndexError` on an
out-of-range scalar write but silently clips slice writes). -/

/-- A region key `(y0, x0, y1, x1)`; `none` models Python `None`. -/
structure GKey : Type where
  y0 : Option Nat
  x0 : Option Nat
  y1 : Option Nat
  x1 : Option Nat
deriving DecidableEq, Repr

/-- A grid child, identified by a numeric id (Python object identity). -/
structure GObj : Type where
  id : Nat
deriving DecidableEq, Repr

/-- State of a grid container: the region mapping and the size parameters
touched by sub-grid extraction (`width`/`height` default to 600 in the
source; `none` models `None`). -/
structure GridSpec : Type where
  objects : List (GKey × GObj)
  width : Option Nat
  height : Option Nat
  maxWidth : Option Nat
  maxHeight : Option Nat
deriving DecidableEq, Repr

/-- Python `max(list)` with `max([]) = 0` (the source guards the empty
case: `max(max_yidx) if max_yidx else 0`). -/
def foldMax (l : List Nat) : Nat := l.foldr max 0

/-- `GridSpec.nrows` (layout.py lines 526-529): maximum concrete row end
bound over all region keys. -/
def gsNrows (objects : List (GKey × GObj)) : Nat :=
  foldMax (objects.filterMap (fun kv => kv.1.y1))

/-- `GridSpec.ncols` (layout.py lines 531-534): maximum concrete column
end bound over all region keys. -/
def gsNcols (objects : List (GKey × GObj)) : Nat :=
  foldMax (objects.filterMap (fun kv => kv.1.x1))

/-- Bound resolution of the `grid` occupancy property (layout.py lines
536-545): a `None` start bound resolves to 0; a `None` column end bound
to `ncols`, a `None` row end bound to `nrows`.  `true` iff the resolved
rectangle contains the cell `(y, x)`. -/
def gridCovers (g : GridSpec) (k : GKey) (y x : Nat) : Bool :=
  let x0 := k.x0.getD 0
  let x1 := k.x1.getD (gsNcols g.objects)
  let y0 := k.y0.getD 0
  let y1 := k.y1.getD (gsNrows g.objects)
  decide (y0 ≤ y ∧ y < y1 ∧ x0 ≤ x ∧ x < x1)

/-- Bound resolution of `__getitem__`'s cell-fill loop (layout.py lines
560-563): the source resolves a `None` column end bound `x1` to
`self.nrows` and a `None` row end bound `y1` to `self.ncols` (the axes
are swapped relative to the `grid` property). -/
def fillCovers (g : GridSpec) (k : GKey) (y x : Nat) : Bool :=
  let l := k.x0.getD 0
  let r := k.x1.getD (gsNrows g.objects)
  let t := k.y0.getD 0
  let b := k.y1.getD (gsNcols g.objects)
  decide (t ≤ y ∧ y < b ∧ l ≤ x ∧ x < r)

/-- Bound resolution of `__setitem__`'s `grid[t:b, l:r] += 1` on an
already-present key (layout.py lines 612-615): same axis swap as
`fillCovers`. -/
def setCovers (g : GridSpec) (k : GKey) (y x : Nat) : Bool :=
  let l := k.x0.getD 0
  let r := k.x1.getD (gsNrows g.objects)
  let t := k.y0.getD 0
  let b := k.y1.getD (gsNcols g.objects)
  decide (t ≤ y ∧ y < b ∧ l ≤ x ∧ x < r)

/-- Cell `(y, x)` of the occupancy array built by the `grid` property
(layout.py lines 536-545): each region adds `+= 1` over its resolved
rectangle, so the cell value is the number of regions covering it.
Meaningful for `y < nrows`, `x < ncols` (the array's extent). -/
def gridCell (g : GridSpec) (y x : Nat) : Nat :=
  g.objects.countP (fun kv => gridCovers g kv.1 y x)

/-- `(grid > 1).any()` over the occupancy array (layout.py line 628,
non-overlap-key branch). -/
def anyOverlapCell (g : GridSpec) : Bool :=
  (List.range (gsNrows g.objects)).any (fun y =>
    (List.range (gsNcols g.objects)).any (fun x => 1 < gridCell g y x))

/-- An index along one axis of a grid subscript: an integer or a slice. -/
inductive GIdx : Type where
  | int : Nat → GIdx
  | slice : Option Nat → Option Nat → GIdx
deriving DecidableEq, Repr

/-- `__setitem__`'s conversion of one subscript axis into key bounds
(layout.py lines 602-610): an integer `n` becomes the pair
`(n, n + 1)`, a slice contributes its bounds unchanged. -/
def setIdxBounds : GIdx → Option Nat × Option Nat
  | .int n => (some n, some (n + 1))
  | .slice a b => (a, b)

/-- `GridSpec.__setitem__` (layout.py lines 596-642).  A new key is
tentatively appended, the occupancy grid is recomputed and the insertion
rolled back (modelled by returning the unchanged state as the error
case) when any cell exceeds 1; for an already-present key the current
occupancy gets `+= 1` over the `setCovers` rectangle instead, and when
no cell exceeds 1 the method simply returns without storing the new
value. -/
def setItem (g : GridSpec) (yidx xidx : GIdx) (o : GObj) :
    Except String GridSpec :=
  let xb := setIdxBounds xidx
  let yb := setIdxBounds yidx
  let key : GKey := { y0 := yb.1, x0 := xb.1, y1 := yb.2, x1 := xb.2 }
  if g.objects.any (fun kv => decide (kv.1 = key)) then
    if (List.range (gsNrows g.objects)).any (fun y =>
        (List.range (gsNcols g.objects)).any (fun x =>
          1 < gridCell g y x + (if setCovers g key y x then 1 else 0))) then
      .error "IndexError: region overlaps existing objects"
    else
      .ok g
  else
    let g1 : GridSpec := { g with objects := g.objects ++ [(key, o)] }
    if anyOverlapCell g1 then
      .error "IndexError: region overlaps existing objects"
    else
      .ok g1

/-- Final value of cell `(y, x)` in the `np.full((nrows, ncols), None)`
array after `__getitem__`'s fill loop (layout.py lines 557-566): regions
are written in mapping order, later regions overwriting earlier ones.
Meaningful for in-range cells. -/
def ownerCell (g : GridSpec) (y x : Nat) : Option (GKey × GObj) :=
  g.objects.foldl
    (fun acc kv => if fillCovers g kv.1 y x then some kv else acc) none

/-- Whether `__getitem__`'s fill loop attempts a scalar write outside the
`(nrows, ncols)` array, which raises `IndexError` in numpy.  A region
writes at all iff its (swap-resolved) rectangle is nonempty, and then
writes out of range iff the rectangle sticks out past the array. -/
def fillOOB (g : GridSpec) : Bool :=
  g.objects.any (fun kv =>
    let l := kv.1.x0.getD 0
    let r := kv.1.x1.getD (gsNrows g.objects)
    let t := kv.1.y0.getD 0
    let b := kv.1.y1.getD (gsNcols g.objects)
    decide (t < b ∧ l < r ∧ (gsNrows g.objects < b ∨ gsNcols g.objects < r)))

/-- `[lo, hi)` as a list of naturals. -/
def natRangeInterval (lo hi : Nat) : List Nat :=
  (List.range (hi - lo)).map (fun k => lo + k)

/-- The cell indices a slice selects along an axis of extent `dim`:
numpy clips slice bounds into `[0, dim]`. -/
def selRange (a b : Option Nat) (dim : Nat) : List Nat :=
  natRangeInterval (min (a.getD 0) dim) (min (b.getD dim) dim)

/-- The cell indices one subscript axis selects: numpy raises
`IndexError` for an integer index outside the extent and clips slices. -/
def resolveSel : GIdx → Nat → Except String (List Nat)
  | .int n, dim =>
      if n < dim then .ok [n] else .error "IndexError: index out of bounds"
  | .slice a b, dim => .ok (selRange a b dim)

/-- Row-major list of selected cells (the traversal order of
`subgrid.flatten()`). -/
def cellsOf (rows cols : List Nat) : List (Nat × Nat) :=
  match rows with
  | [] => []
  | y :: ys => cols.map (fun x => (y, x)) ++ cellsOf ys cols

/-- `[list(o)[0] for o in subgrid.flatten()]` (layout.py line 570): reads
each selected cell's singleton `(key, obj)` set; a `None` cell raises
`TypeError`. -/
def collectOwners (g : GridSpec) : List (Nat × Nat) →
    Except String (List (GKey × GObj))
  | [] => .ok []
  | c :: cs =>
      match ownerCell g c.1 c.2 with
      | none => .error "TypeError: NoneType object is not iterable"
      | some kv =>
          match collectOwners g cs with
          | .ok l => .ok (kv :: l)
          | .error e => .error e

/-- One insertion into an `OrderedDict` built from a pair list: an
existing key keeps its position and has its value replaced, a new key is
appended. -/
def odInsert (l : List (GKey × GObj)) (kv : GKey × GObj) :
    List (GKey × GObj) :=
  if l.any (fun e => decide (e.1 = kv.1)) then
    l.map (fun e => if e.1 = kv.1 then kv else e)
  else
    l ++ [kv]

/-- `OrderedDict(pairs)`. -/
def odOfList (l : List (GKey × GObj)) : List (GKey × GObj) :=
  l.foldl odInsert []

/-- `GridSpec._xoffset` (layout.py lines 512-515): the minimum concrete
column start bound, but only when every key has one; otherwise 0. -/
def gsXoffset (objects : List (GKey × GObj)) : Nat :=
  let m := objects.filterMap (fun kv => kv.1.x0)
  if m ≠ [] ∧ m.length = objects.length then (m.min?).getD 0 else 0

/-- `GridSpec._yoffset` (layout.py lines 517-520): the minimum concrete
row start bound, but only when every key has one; otherwise 0. -/
def gsYoffset (objects : List (GKey × GObj)) : Nat :=
  let m := objects.filterMap (fun kv => kv.1.y0)
  if m ≠ [] ∧ m.length = objects.length then (m.min?).getD 0 else 0

/-- Re-basing of one region key in `__getitem__` (layout.py lines
574-578): each concrete bound has the axis offset subtracted (Python int
subtraction; in every reachable call the offset is at most the bound -
the offset is a minimum of start bounds of regions owning at least one
cell - so Nat subtraction agrees). -/
def adjustKey (yoff xoff : Nat) (k : GKey) : GKey :=
  { y0 := k.y0.map (fun v => v - yoff), x0 := k.x0.map (fun v => v - xoff),
    y1 := k.y1.map (fun v => v - yoff), x1 := k.x1.map (fun v => v - xoff) }

/-- The `if pair not in adjusted: adjusted.append(pair)` dedup loop
(layout.py lines 579-580). -/
def dedupPairs (l : List (GKey × GObj)) : List (GKey × GObj) :=
  l.foldl (fun acc p => if p ∈ acc then acc else acc ++ [p]) []

/-- Fuel-driven floor of the base-2 logarithm: `natLog2 fuel n` halves
`n` until it drops below 2, counting the steps; with `fuel ≥ n` this is
`⌊log₂ n⌋` (0 at 0). -/
def natLog2 : Nat → Nat → Nat
  | 0, _ => 0
  | fuel + 1, n => if n < 2 then 0 else natLog2 fuel (n / 2) + 1

/-- `⌊log₂ n⌋` (0 at 0). -/
def floorLog2 (n : Nat) : Nat := natLog2 n n

/-- Round the non-negative rational `p/q` to the nearest integer, ties
to even (the IEEE 754 default rounding direction). -/
def rne (p q : Nat) : Nat :=
  let d := p / q
  let r := p % q
  if 2 * r < q then d
  else if q < 2 * r then d + 1
  else if d % 2 = 0 then d else d + 1

/-- The binary64 double nearest to the non-negative rational `p/q`
(round to nearest, ties to even, exponent unbounded), returned as a
count of units of `2 ^ 1074`ths (the smallest positive double is one
unit): the finite non-negative doubles are exactly the unit counts
`s * 2 ^ t` with `s < 2 ^ 53` below `2 ^ 2098` units (`= 2 ^ 1024`), so
the rounding granularity at magnitude `2 ^ e` units is `2 ^ (e - 52)`
units (clamped at one unit, which covers the subnormal range). -/
def roundFloat (p q : Nat) : Nat :=
  let N := p * 2 ^ 1074
  let t := floorLog2 (N / q) - 52
  rne N (q * 2 ^ t) * 2 ^ t

/-- `float(n)` for a non-negative Python int (CPython
`PyLong_AsDouble`): correctly rounded to binary64, `OverflowError` when
the rounded value reaches `2 ^ 1024` (`2 ^ 2098` units). -/
def pyFloat (n : Nat) : Except String Nat :=
  let f := roundFloat n 1
  if f < 2 ^ 2098 then .ok f
  else .error "OverflowError: int too large to convert to float"

/-- `sub/float(total)` (layout.py lines 582-583): the right operand
`float(total)` converts first, then the division coerces `sub` to a
double, then a zero divisor raises `ZeroDivisionError` (the conversion
order of CPython `float_div` on an int/float pair); the quotient of the
two doubles is correctly rounded (a non-zero divisor comes from an int
of at least 1, so the quotient never overflows to infinity). -/
def pyScale (sub total : Nat) : Except String Nat :=
  match pyFloat total with
  | .error e => .error e
  | .ok tf =>
    match pyFloat sub with
    | .error e => .error e
    | .ok sf =>
      if tf = 0 then .error "ZeroDivisionError: float division by zero"
      else .ok (roundFloat sf tf)

/-- `int(v * scale)` for a Python int `v` and a double `scale` given in
units (layout.py lines 585-591): the multiplication coerces `v` to a
double (`OverflowError` out of range), the exact product is rounded to
binary64 (the two unit counts multiply to `2 ^ 2148`ths), an infinite
product cannot be truncated (`OverflowError`), and `int` truncates the
non-negative finite result toward zero. -/
def pyScaleInt (v scale : Nat) : Except String Nat :=
  match pyFloat v with
  | .error e => .error e
  | .ok vf =>
    let pf := roundFloat (vf * scale) (2 ^ 2148)
    if pf < 2 ^ 2098 then .ok (pf / 2 ^ 1074)
    else .error "OverflowError: cannot convert float infinity to integer"

/-- `if gspec.width: gspec.width = int(gspec.width * width_scale)`
(layout.py lines 584-591) for one size field: `None` and 0 are skipped
(Python falsiness), any other value is scaled by the double `scale` and
truncated. -/
def scaleOpt (w : Option Nat) (scale : Nat) :
    Except String (Option Nat) :=
  match w with
  | some v =>
    if v ≠ 0 then
      match pyScaleInt v scale with
      | .ok r => .ok (some r)
      | .error e => .error e
    else .ok (some v)
  | none => .ok none

/-- The sub-grid `__getitem__` builds from the collected cell owners
(layout.py lines 569-591): dedup into an ordered mapping, re-base the
keys by the sub-grid offsets, then scale the size parameters by the
sub-grid's fraction of the original extent - per axis the double
`sub/float(total)` - applied to width, height, max_width, max_height in
source order; errors of the scale factors and conversions propagate
(`ZeroDivisionError` on a zero extent, `OverflowError` out of double
range). -/
def subGridOf (g : GridSpec) (pairs : List (GKey × GObj)) :
    Except String GridSpec :=
  let sub := odOfList pairs
  let adjusted := dedupPairs
    (sub.map (fun kv =>
      (adjustKey (gsYoffset sub) (gsXoffset sub) kv.1, kv.2)))
  match pyScale (gsNcols adjusted) (gsNcols g.objects) with
  | .error e => .error e
  | .ok ws =>
    match pyScale (gsNrows adjusted) (gsNrows g.objects) with
    | .error e => .error e
    | .ok hsc =>
      match scaleOpt g.width ws with
      | .error e => .error e
      | .ok w =>
        match scaleOpt g.height hsc with
        | .error e => .error e
        | .ok h =>
          match scaleOpt g.maxWidth ws with
          | .error e => .error e
          | .ok mw =>
            match scaleOpt g.maxHeight hsc with
            | .error e => .error e
            | .ok mh =>
              .ok { objects := adjusted, width := w, height := h,
                    maxWidth := mw, maxHeight := mh }

/-- The ndarray branch of `GridSpec.__getitem__` (layout.py lines
567-592): collect the owning `(key, obj)` pair of every selected cell,
then build the re-based, re-scaled sub-grid. -/
def getItemSlicePart (g : GridSpec) (rows cols : List Nat) :
    Except String GridSpec :=
  match collectOwners g (cellsOf rows cols) with
  | .error e => .error e
  | .ok pairs => subGridOf g pairs

/-- `GridSpec.__getitem__` (layout.py lines 551-594): fill the dense
ownership array (whose scalar writes can raise), then either read one
cell (scalar-scalar subscript: the owning child, `TypeError` on an empty
cell) or extract a sub-grid. -/
def getItem (g : GridSpec) (yidx xidx : GIdx) :
    Except String (GObj ⊕ GridSpec) :=
  if fillOOB g then
    .error "IndexError: fill writes outside the grid array"
  else
    match yidx, xidx with
    | .int y, .int x =>
        if y < gsNrows g.objects ∧ x < gsNcols g.objects then
          match ownerCell g y x with
          | some kv => .ok (.inl kv.2)
          | none => .error "TypeError: NoneType object is not iterable"
        else
          .error "IndexError: index out of bounds"
    | _, _ =>
        match resolveSel yidx (gsNrows g.objects),
              resolveSel xidx (gsNcols g.objects) with
        | .ok rows, .ok cols =>
            match getItemSlicePart g rows cols with
            | .ok gs => .ok (.inr gs)
            | .error e => .error e
        | .error e, _ => .error e
        | _, .error e => .error e

/-! ### Reconciliation: `Panel._get_objects`

Components form a tree (a container's children are components); each
component is identified by a numeric id standing for Python object
identity.  Per display-surface root, a ledger maps component ids to
backend node ids (`pane._models[root.ref['id']]`).  `_get_model` (node
creation) and the base of `_cleanup` (ledger-entry removal) live outside
the provided source, so they are modelled from the spec as noted on each
definition; `_get_objects` itself follows layout.py lines 77-95. -/

/-- A component: its id (Python object identity) and its current
children. -/
inductive Component : Type where
  | node : Nat → List Component → Component
deriving Repr

/-- The component's id. -/
def Component.cid : Component → Nat
  | .node i _ => i

/-- The per-root render state: the ledger of backend nodes (component id
to node id), a fresh-node counter (backend node allocation), and an
instrumentation log of the component ids whose ledger entry was
disposed, in order. -/
structure RenderState : Type where
  ledger : List (Nat × Nat)
  fresh : Nat
  disposed : List Nat
deriving DecidableEq, Repr

/-- Removes a component's ledger entry. -/
def ledgerRemove (l : List (Nat × Nat)) (k : Nat) : List (Nat × Nat) :=
  l.filter (fun e => decide (e.1 ≠ k))

/-- Registers a backend node for a component (Python dict write: an
existing entry is replaced in place, a new one appended). -/
def ledgerSet (l : List (Nat × Nat)) (k v : Nat) : List (Nat × Nat) :=
  if l.any (fun e => decide (e.1 = k)) then
    l.map (fun e => if e.1 = k then (k, v) else e)
  else
    l ++ [(k, v)]

/-- Looks up a component's backend node
(`pane._models[root.ref['id']]`). -/
def ledgerGet (l : List (Nat × Nat)) (k : Nat) : Option Nat :=
  (l.find? (fun e => decide (e.1 = k))).map (fun e => e.2)

mutual

/-- The ids of a component and all its descendants. -/
def allIds : Component → List Nat
  | .node i cs => i :: allIdsList cs

/-- The ids of a list of components and all their descendants. -/
def allIdsList : List Component → List Nat
  | [] => []
  | c :: cs => allIds c ++ allIdsList cs

end

mutual

/-- `Panel._cleanup(root)` (layout.py lines 108-111) together with its
base behaviour, modelled from the spec: dispose removes this root's
ledger entry and recursively disposes all children for this root.  The
`disposed` log records each disposal. -/
def cleanup : Component → RenderState → RenderState
  | .node i cs, st =>
      cleanupList cs
        { ledger := ledgerRemove st.ledger i, fresh := st.fresh,
          disposed := st.disposed ++ [i] }

/-- Disposes a list of components in order. -/
def cleanupList : List Component → RenderState → RenderState
  | [], st => st
  | c :: cs, st => cleanupList cs (cleanup c st)

end

mutual

/-- `Panel._get_model` (layout.py lines 97-106), modelled from the spec
where it leaves this file's source (node construction): materialize
creates the backend node (a fresh node id), recursively materializes all
current children through the reconciliation routine with an empty
previous set, and registers the node under this root. -/
def getModel : Component → RenderState → Nat × RenderState
  | .node i cs, st =>
      let node := st.fresh
      let st1 : RenderState := { st with fresh := st.fresh + 1 }
      let st2 := createAll cs st1
      (node, { st2 with ledger := ledgerSet st2.ledger i node })

/-- `_get_objects(model, [], ...)` specialized to an empty previous set:
every child is materialized, no child is disposed. -/
def createAll : List Component → RenderState → RenderState
  | [], st => st
  | c :: cs, st => createAll cs (getModel c st).2

end

/-- Python `pane in old_objects`: membership by object identity,
modelled by component-id equality (ids are unique per object). -/
def memObj (c : Component) (l : List Component) : Bool :=
  l.any (fun o => decide (o.cid = c.cid))

/-- The per-child loop of `Panel._get_objects` (layout.py lines 83-91):
a child present in the previous set reuses its ledger entry (`none`
models the `KeyError` when the entry is missing); any other child is
materialized. -/
def getChildren (objects old : List Component) (st : RenderState) :
    Option (List Nat × RenderState) :=
  match objects with
  | [] => some ([], st)
  | c :: rest =>
      if memObj c old then
        match ledgerGet st.ledger c.cid with
        | none => none
        | some n =>
            match getChildren rest old st with
            | some (ms, st1) => some (n :: ms, st1)
            | none => none
      else
        let r := getModel c st
        match getChildren rest old r.2 with
        | some (ms, st1) => some (r.1 :: ms, st1)
        | none => none

/-- The disposal loop of `Panel._get_objects` (layout.py lines 92-94):
every previous child absent from the current collection is cleaned
up. -/
def cleanupGone (objects old : List Component) (st : RenderState) :
    RenderState :=
  old.foldl (fun s o => if memObj o objects then s else cleanup o s) st

/-- `Panel._get_objects(model, old_objects, ...)` (layout.py lines
77-95): returns the ordered backend-node list for the current children
and the render state after reuse, creation and disposal. -/
def getObjects (objects old : List Component) (st : RenderState) :
    Option (List Nat × RenderState) :=
  match getChildren objects old st with
  | some (ms, st1) => some (ms, cleanupGone objects old st1)
  | none => none

/-! ## Shared helpers for the claim theorems -/

/-- Whether an `Except` computation raised. -/
def isErr {α : Type} (e : Except String α) : Bool :=
  match e with
  | .error _ => true
  | .ok _ => false

/-- A cell is occupied when some placed region's resolved rectangle (in
the `grid` property's resolution, the one the spec describes) contains
it. -/
def occupiedB (g : GridSpec) (y x : Nat) : Bool :=
  g.objects.any (fun kv => gridCovers g kv.1 y x)

/-- The cells one subscript axis addresses, for stating coverage:
an integer addresses exactly its cell, a slice its clipped range. -/
def selAxis : GIdx → Nat → List Nat
  | .int n, _ => [n]
  | .slice a b, dim => selRange a b dim

/-- A region intersects a selection when it covers at least one selected
cell (in the `grid` property's resolution). -/
def regionIntersects (g : GridSpec) (rows cols : List Nat)
    (kv : GKey × GObj) : Bool :=
  (cellsOf rows cols).any (fun c => gridCovers g kv.1 c.1 c.2)

/-! ## Claim C1: axis used to resolve `None` end bounds -/

/-- The open-ended key of the fixture grid below: rows `[1, 2)`, columns
`[0, None)`. -/
def c1KeyB : GKey := { y0 := some 1, x0 := some 0, y1 := some 2, x1 := none }

/-- A non-square grid (2 rows, 3 columns): one concrete region on row 0
and one open-ended region on row 1. -/
def c1Grid : GridSpec :=
  { objects := [({ y0 := some 0, x0 := some 0, y1 := some 1, x1 := some 3 },
                 { id := 1 }),
                (c1KeyB, { id := 2 })],
    width := some 600, height := some 600,
    maxWidth := none, maxHeight := none }

/-- Claim C1 is false of the code: on the non-square 2x3 grid `c1Grid`,
the occupancy property (`grid`, lines 536-545) resolves the open column
end of `c1KeyB` to `ncols = 3` and counts cell `(1, 2)` as covered,
while the cell-fill resolution of `__getitem__` (lines 560-563) and the
`+= 1` resolution of `__setitem__` (lines 612-615) resolve it to
`nrows = 2` and leave `(1, 2)` uncovered: the three operations do not
resolve a `None` bound against the same axis. -/
theorem c1_none_bound_axis_swap :
    gsNrows c1Grid.objects = 2 ∧ gsNcols c1Grid.objects = 3 ∧
    gridCovers c1Grid c1KeyB 1 2 = true ∧
    gridCell c1Grid 1 2 = 1 ∧
    fillCovers c1Grid c1KeyB 1 2 = false ∧
    setCovers c1Grid c1KeyB 1 2 = false ∧
    ownerCell c1Grid 1 2 = none := by
  decide

/-! ## Claim C4: overlap detection and rollback on assignment -/

/-- First fixture step for claim C4: the grid after `grid[0:1, 0:3] = A`. -/
def c4G1 : GridSpec :=
  { objects := [({ y0 := some 0, x0 := some 0, y1 := some 1, x1 := some 3 },
                 { id := 1 })],
    width := some 600, height := some 600,
    maxWidth := none, maxHeight := none }

/-- Second fixture step for claim C4: the grid after `grid[1:2, 2:] = B`. -/
def c4G2 : GridSpec :=
  { objects := [({ y0 := some 0, x0 := some 0, y1 := some 1, x1 := some 3 },
                 { id := 1 }),
                ({ y0 := some 1, x0 := some 2, y1 := some 2, x1 := none },
                 { id := 2 })],
    width := some 600, height := some 600,
    maxWidth := none, maxHeight := none }

/-- The empty grid fixture. -/
def c4Empty : GridSpec :=
  { objects := [], width := some 600, height := some 600,
    maxWidth := none, maxHeight := none }

/-- Claim C4 is false of the code at a reachable input: after
`grid[0:1, 0:3] = A` and `grid[1:2, 2:] = B` (both succeed), the
assignment `grid[1:2, 2:] = C` addresses a region whose resolved
rectangle contains the occupied cell `(1, 2)` (occupied by B itself),
yet it raises nothing: because `__setitem__` resolves the `None` column
end to `nrows` (lines 612-615), its `+= 1` rectangle is empty, the
overlap test passes, and the method returns with the mapping unchanged -
C is silently dropped instead of an overlap error being raised. -/
theorem c4_overlap_assignment_not_raised :
    setItem c4Empty (.slice (some 0) (some 1)) (.slice (some 0) (some 3))
      { id := 1 } = .ok c4G1 ∧
    setItem c4G1 (.slice (some 1) (some 2)) (.slice (some 2) none)
      { id := 2 } = .ok c4G2 ∧
    gridCell c4G2 1 2 = 1 ∧
    gridCovers c4G2 { y0 := some 1, x0 := some 2, y1 := some 2, x1 := none }
      1 2 = true ∧
    setItem c4G2 (.slice (some 1) (some 2)) (.slice (some 2) none)
      { id := 3 } = .ok c4G2 := by
  exact ⟨rfl, rfl, rfl, rfl, rfl⟩

/-! ## Claim C3: tab label re-synchronization -/

theorem firstIdx_lt_length {α : Type} [DecidableEq α] :
    ∀ (l : List α) (x : α) (i : Nat), firstIdx l x = some i → i < l.length
  | [], x, i, h => by simp [firstIdx] at h
  | y :: ys, x, i, h => by
    simp only [firstIdx] at h
    by_cases hyx : y = x
    · rw [if_pos hyx] at h
      injection h with h
      simp only [List.length_cons]
      omega
    · rw [if_neg hyx] at h
      cases hj : firstIdx ys x with
      | none => rw [hj] at h; simp at h
      | some j =>
          rw [hj] at h
          simp only [Option.map_some'] at h
          injection h with h
          have := firstIdx_lt_length ys x j hj
          simp only [List.length_cons]
          omega

theorem seqOpt_map_spec {α β : Type} (f : α → Option β) :
    ∀ l : List α, (∀ a ∈ l, (f a).isSome) →
      ∃ res, seqOpt (l.map f) = some res ∧ res.length = l.length ∧
        ∀ i, res.get? i = (l.get? i).bind f
  | [], _ => ⟨[], rfl, rfl, fun i => by cases i <;> rfl⟩
  | a :: l, h => by
    have ha : (f a).isSome := h a (List.mem_cons_self a l)
    obtain ⟨b, hb⟩ := Option.isSome_iff_exists.mp ha
    obtain ⟨res, hres, hlen, hget⟩ :=
      seqOpt_map_spec f l (fun x hx => h x (List.mem_cons_of_mem a hx))
    refine ⟨b :: res, ?_, by simp [hlen], ?_⟩
    · simp [seqOpt, hb, hres]
    · intro i
      cases i with
      | zero => simp [hb]
      | succ j => simpa using hget j

/-- Fixture child for claim C3. -/
def c3A : TObj := { id := 1, name := "a" }

/-- Fixture child for claim C3. -/
def c3B : TObj := { id := 2, name := "b" }

/-- Claim C3 is false as stated: replacing the single child `c3A`
(labelled "x") by the new child `c3B` is an old/new pair of equal
length, for which `_update_names` early-returns (layout.py lines
314-315) and leaves the stale label "x" in place, instead of giving the
genuinely new child its own name "b". -/
theorem c3_equal_length_keeps_stale_label :
    updateNames [c3A] [c3B] ["x"] = some ["x"] ∧ c3B.name = "b" ∧
    "x" ≠ "b" := by
  exact ⟨rfl, rfl, by decide⟩

/-- Claim C3 (amended): the per-child label rule holds whenever the
re-synchronization routine actually runs its loop, namely when the new
collection's length differs from the current label list's length; on
equal lengths the source early-returns and leaves the labels untouched
(the correction the counterexample forces).  When the label list is
aligned with the old collection, each new child present in the old
collection keeps the label stored at its first position there, and each
other child gets its own current name. -/
theorem c3_update_names_resync (old newObjs : List TObj)
    (names : List String) (hlen : names.length = old.length)
    (hne : newObjs.length ≠ names.length) :
    ∃ res, updateNames old newObjs names = some res ∧
      res.length = newObjs.length ∧
      ∀ i o, newObjs.get? i = some o →
        ((∃ j, firstIdx old o = some j ∧ res.get? i = names.get? j) ∨
         (firstIdx old o = none ∧ res.get? i = some o.name)) := by
  have hsome : ∀ o ∈ newObjs,
      (match firstIdx old o with
       | some i => names.get? i
       | none => some o.name).isSome := by
    intro o _
    cases h : firstIdx old o with
    | none => simp
    | some j =>
        have hj : j < names.length := by
          have := firstIdx_lt_length old o j h
          omega
        simp [List.getElem?_eq_getElem hj]
  obtain ⟨res, hres, hrlen, hget⟩ := seqOpt_map_spec _ newObjs hsome
  refine ⟨res, ?_, hrlen, ?_⟩
  · simpa [updateNames, hne] using hres
  · intro i o ho
    have := hget i
    rw [ho] at this
    cases h : firstIdx old o with
    | none =>
        right
        refine ⟨rfl, ?_⟩
        rw [this]
        simp [h]
    | some j =>
        left
        refine ⟨j, rfl, ?_⟩
        rw [this]
        simp [h]

/-- Witness for claim C3's amended theorem at the concrete input
`old = [c3A]` (labelled "x"), `new = [c3B, c3A]`. -/
theorem c3_update_names_resync_witness :
    ∃ res, updateNames [c3A] [c3B, c3A] ["x"] = some res ∧
      res.length = [c3B, c3A].length ∧
      ∀ i o, [c3B, c3A].get? i = some o →
        ((∃ j, firstIdx [c3A] o = some j ∧ res.get? i = ["x"].get? j) ∨
         (firstIdx [c3A] o = none ∧ res.get? i = some o.name)) :=
  c3_update_names_resync [c3A] [c3B, c3A] ["x"] (by decide) (by decide)

/-! ## Claim C10: re-basing offsets of sub-grid extraction -/

theorem length_filterMap_of_all_some {α β : Type} (f : α → Option β) :
    ∀ l : List α, (∀ a ∈ l, (f a).isSome) →
      (l.filterMap f).length = l.length
  | [], _ => rfl
  | a :: l, h => by
    have ha : (f a).isSome := h a (List.mem_cons_self a l)
    obtain ⟨b, hb⟩ := Option.isSome_iff_exists.mp ha
    have := length_filterMap_of_all_some f l
      (fun x hx => h x (List.mem_cons_of_mem a hx))
    simp [List.filterMap_cons, hb, this]

theorem length_filterMap_ne_of_none {α β : Type} (f : α → Option β) :
    ∀ l : List α, ∀ a ∈ l, f a = none →
      (l.filterMap f).length ≠ l.length
  | [], a, ha, _ => by simp at ha
  | b :: l, a, ha, hnone => by
    rcases List.mem_cons.mp ha with rfl | hmem
    · have hle := List.length_filterMap_le f l
      simp only [List.filterMap_cons, hnone, List.length_cons]
      omega
    · cases hb : f b with
      | none =>
          have hle := List.length_filterMap_le f l
          simp only [List.filterMap_cons, hb, List.length_cons]
          omega
      | some c =>
          have := length_filterMap_ne_of_none f l a hmem hnone
          simp only [List.filterMap_cons, hb, List.length_cons]
          omega

/-- Claim C10: the re-basing offset on an axis is the minimum start
bound over the extracted regions exactly when every extracted key has a
concrete start bound on that axis (the source checks
`len(min_xidx) == len(self.objects)`); when any start bound on that
axis is `None` the offset is 0 and `adjustKey` leaves that axis of
every key unchanged. -/
theorem c10_rebase_offsets (objects : List (GKey × GObj)) :
    (objects ≠ [] → (∀ kv ∈ objects, kv.1.x0.isSome) →
      (∃ kv ∈ objects, kv.1.x0 = some (gsXoffset objects)) ∧
      (∀ kv ∈ objects, ∀ v, kv.1.x0 = some v → gsXoffset objects ≤ v)) ∧
    ((∃ kv ∈ objects, kv.1.x0 = none) →
      gsXoffset objects = 0 ∧
      ∀ k : GKey,
        (adjustKey (gsYoffset objects) (gsXoffset objects) k).x0 = k.x0 ∧
        (adjustKey (gsYoffset objects) (gsXoffset objects) k).x1 = k.x1) ∧
    (objects ≠ [] → (∀ kv ∈ objects, kv.1.y0.isSome) →
      (∃ kv ∈ objects, kv.1.y0 = some (gsYoffset objects)) ∧
      (∀ kv ∈ objects, ∀ v, kv.1.y0 = some v → gsYoffset objects ≤ v)) ∧
    ((∃ kv ∈ objects, kv.1.y0 = none) →
      gsYoffset objects = 0 ∧
      ∀ k : GKey,
        (adjustKey (gsYoffset objects) (gsXoffset objects) k).y0 = k.y0 ∧
        (adjustKey (gsYoffset objects) (gsXoffset objects) k).y1 = k.y1) := by
  constructor
  · intro hne hall
    have hlen : (objects.filterMap (fun kv => kv.1.x0)).length =
        objects.length :=
      length_filterMap_of_all_some _ objects hall
    have hmne : objects.filterMap (fun kv => kv.1.x0) ≠ [] := by
      intro h
      apply hne
      have := hlen
      rw [h] at this
      exact List.eq_nil_of_length_eq_zero this.symm
    obtain ⟨m, hm⟩ : ∃ m,
        (objects.filterMap (fun kv => kv.1.x0)).min? = some m := by
      cases hml : objects.filterMap (fun kv => kv.1.x0) with
      | nil => exact absurd hml hmne
      | cons a l => exact ⟨l.foldl min a, rfl⟩
    obtain ⟨hmem, hle⟩ := List.min?_eq_some_iff'.mp hm
    have hoff : gsXoffset objects = m := by
      simp only [gsXoffset, hm]
      rw [if_pos ⟨hmne, hlen⟩]
      rfl
    constructor
    · obtain ⟨kv, hkv, hkvx⟩ := List.mem_filterMap.mp hmem
      exact ⟨kv, hkv, by rw [hoff]; exact hkvx⟩
    · intro kv hkv v hv
      rw [hoff]
      exact hle v (List.mem_filterMap.mpr ⟨kv, hkv, hv⟩)
  constructor
  · intro ⟨kv, hkv, hkvx⟩
    have hne : (objects.filterMap (fun kv => kv.1.x0)).length ≠
        objects.length :=
      length_filterMap_ne_of_none _ objects kv hkv hkvx
    have hoff : gsXoffset objects = 0 := by
      simp only [gsXoffset]
      rw [if_neg (by intro ⟨_, h⟩; exact hne h)]
    refine ⟨hoff, fun k => ?_⟩
    rw [hoff]
    constructor <;> (cases hx : k.x0 <;> cases hx1 : k.x1 <;>
      simp [adjustKey, hx, hx1])
  constructor
  · intro hne hall
    have hlen : (objects.filterMap (fun kv => kv.1.y0)).length =
        objects.length :=
      length_filterMap_of_all_some _ objects hall
    have hmne : objects.filterMap (fun kv => kv.1.y0) ≠ [] := by
      intro h
      apply hne
      have := hlen
      rw [h] at this
      exact List.eq_nil_of_length_eq_zero this.symm
    obtain ⟨m, hm⟩ : ∃ m,
        (objects.filterMap (fun kv => kv.1.y0)).min? = some m := by
      cases hml : objects.filterMap (fun kv => kv.1.y0) with
      | nil => exact absurd hml hmne
      | cons a l => exact ⟨l.foldl min a, rfl⟩
    obtain ⟨hmem, hle⟩ := List.min?_eq_some_iff'.mp hm
    have hoff : gsYoffset objects = m := by
      simp only [gsYoffset, hm]
      rw [if_pos ⟨hmne, hlen⟩]
      rfl
    constructor
    · obtain ⟨kv, hkv, hkvy⟩ := List.mem_filterMap.mp hmem
      exact ⟨kv, hkv, by rw [hoff]; exact hkvy⟩
    · intro kv hkv v hv
      rw [hoff]
      exact hle v (List.mem_filterMap.mpr ⟨kv, hkv, hv⟩)
  · intro ⟨kv, hkv, hkvy⟩
    have hne : (objects.filterMap (fun kv => kv.1.y0)).length ≠
        objects.length :=
      length_filterMap_ne_of_none _ objects kv hkv hkvy
    have hoff : gsYoffset objects = 0 := by
      simp only [gsYoffset]
      rw [if_neg (by intro ⟨_, h⟩; exact hne h)]
    refine ⟨hoff, fun k => ?_⟩
    rw [hoff]
    constructor <;> (cases hy : k.y0 <;> cases hy1 : k.y1 <;>
      simp [adjustKey, hy, hy1])

/-- Fixture for the C10 witness: two fully-bounded keys. -/
def c10Objs : List (GKey × GObj) :=
  [({ y0 := some 3, x0 := some 2, y1 := some 4, x1 := some 5 }, { id := 1 }),
   ({ y0 := some 1, x0 := some 4, y1 := some 2, x1 := some 6 }, { id := 2 })]

/-- Witness for claim C10 at the concrete fixture `c10Objs`. -/
theorem c10_rebase_offsets_witness :
    (∃ kv ∈ c10Objs, kv.1.x0 = some (gsXoffset c10Objs)) ∧
    (∀ kv ∈ c10Objs, ∀ v, kv.1.x0 = some v → gsXoffset c10Objs ≤ v) :=
  (c10_rebase_offsets c10Objs).1 (by decide) (by decide)

/-! ## Claim C8: `pop` resolves members before positions -/

theorem firstIdx_get {α : Type} [DecidableEq α] :
    ∀ (l : List α) (x : α) (i : Nat), firstIdx l x = some i →
      l.get? i = some x
  | [], x, i, h => by simp [firstIdx] at h
  | y :: ys, x, i, h => by
    simp only [firstIdx] at h
    by_cases hyx : y = x
    · rw [if_pos hyx] at h
      injection h with h
      subst h
      simpa using hyx
    · rw [if_neg hyx] at h
      cases hj : firstIdx ys x with
      | none => rw [hj] at h; simp at h
      | some j =>
          rw [hj] at h
          simp only [Option.map_some'] at h
          injection h with h
          subst h
          simpa using firstIdx_get ys x j hj

theorem firstIdx_min {α : Type} [DecidableEq α] :
    ∀ (l : List α) (x : α) (i : Nat), firstIdx l x = some i →
      ∀ j, j < i → l.get? j ≠ some x
  | [], x, i, h => by simp [firstIdx] at h
  | y :: ys, x, i, h => by
    simp only [firstIdx] at h
    by_cases hyx : y = x
    · rw [if_pos hyx] at h
      injection h with h
      subst h
      intro j hj
      omega
    · rw [if_neg hyx] at h
      cases hi : firstIdx ys x with
      | none => rw [hi] at h; simp at h
      | some i0 =>
          rw [hi] at h
          simp only [Option.map_some'] at h
          injection h with h
          subst h
          intro j hj
          cases j with
          | zero =>
              simp only [List.get?]
              intro hc
              injection hc with hc
              exact hyx hc
          | succ j0 =>
              have := firstIdx_min ys x i0 hi j0 (by omega)
              simpa using this

theorem firstIdx_isSome_of_mem {α : Type} [DecidableEq α] :
    ∀ (l : List α) (x : α), x ∈ l → ∃ i, firstIdx l x = some i
  | [], x, h => by simp at h
  | y :: ys, x, h => by
    simp only [firstIdx]
    by_cases hyx : y = x
    · exact ⟨0, by rw [if_pos hyx]⟩
    · have hmem : x ∈ ys := by
        rcases List.mem_cons.mp h with h1 | h1
        · exact absurd h1.symm hyx
        · exact h1
      obtain ⟨i, hi⟩ := firstIdx_isSome_of_mem ys x hmem
      exact ⟨i + 1, by rw [if_neg hyx, hi]; rfl⟩

/-- Claim C8: `pop(x)` removes the element at the first position where
`x` occurs when `x` equals an existing element; otherwise `x` is used as
a positional index (valid non-negative positions shown; an index at or
past the length raises).  Successful calls shrink the list by exactly
one element, keeping everything before and after the removed position in
order (the `take ++ drop` form). -/
theorem c8_pop_member_else_position :
    (∀ (os : List LObj) (p : LObj), p ∈ os →
      ∃ i, firstIdx os p = some i ∧ os.get? i = some p ∧
        (∀ j, j < i → os.get? j ≠ some p) ∧
        lpPop os (.obj p) = .ok (os.take i ++ os.drop (i + 1)) ∧
        (os.take i ++ os.drop (i + 1)).length + 1 = os.length) ∧
    (∀ (os : List LObj) (i : Int), 0 ≤ i → i < (os.length : Int) →
      lpPop os (.idx i) = .ok (os.take i.toNat ++ os.drop (i.toNat + 1)) ∧
      (os.take i.toNat ++ os.drop (i.toNat + 1)).length + 1 = os.length) ∧
    (∀ (os : List LObj) (i : Int), (os.length : Int) ≤ i →
      isErr (lpPop os (.idx i)) = true) := by
  refine ⟨?_, ?_, ?_⟩
  · intro os p hp
    obtain ⟨i, hi⟩ := firstIdx_isSome_of_mem os p hp
    have hlt : i < os.length := firstIdx_lt_length os p i hi
    have hlen : (os.take i ++ os.drop (i + 1)).length + 1 = os.length := by
      simp only [List.length_append, List.length_take, List.length_drop]
      omega
    refine ⟨i, hi, firstIdx_get os p i hi, firstIdx_min os p i hi, ?_, hlen⟩
    have hcond : 0 ≤ (i : Int) ∧ (i : Int) < (os.length : Int) := by
      constructor
      · exact Int.ofNat_nonneg i
      · exact_mod_cast hlt
    simp only [lpPop, hi, pyPop, if_pos hcond, Int.toNat_ofNat,
      List.eraseIdx_eq_take_drop_succ]
  · intro os i h0 hlt
    have hcond : 0 ≤ i ∧ i < (os.length : Int) := ⟨h0, hlt⟩
    have hlenNat : i.toNat < os.length := by omega
    constructor
    · simp only [lpPop, pyPop, if_pos hcond,
        List.eraseIdx_eq_take_drop_succ]
    · simp only [List.length_append, List.length_take, List.length_drop]
      omega
  · intro os i h
    have h0 : os.length ≤ i := h
    have hc1 : ¬(0 ≤ i ∧ i < (os.length : Int)) := by omega
    have hc2 : ¬(-(os.length : Int) ≤ i ∧ i < 0) := by omega
    simp [lpPop, pyPop, hc1, hc2, isErr]

/-- Witness for claim C8: popping the concrete member `⟨2⟩` from
`[⟨1⟩, ⟨2⟩]`, and popping position 0. -/
theorem c8_pop_member_else_position_witness :
    (∃ i, firstIdx [LObj.mk 1, LObj.mk 2] (LObj.mk 2) = some i ∧
      [LObj.mk 1, LObj.mk 2].get? i = some (LObj.mk 2) ∧
      (∀ j, j < i → [LObj.mk 1, LObj.mk 2].get? j ≠ some (LObj.mk 2)) ∧
      lpPop [LObj.mk 1, LObj.mk 2] (.obj (LObj.mk 2)) =
        .ok ([LObj.mk 1, LObj.mk 2].take i ++
             [LObj.mk 1, LObj.mk 2].drop (i + 1)) ∧
      ([LObj.mk 1, LObj.mk 2].take i ++
       [LObj.mk 1, LObj.mk 2].drop (i + 1)).length + 1 =
        [LObj.mk 1, LObj.mk 2].length) ∧
    isErr (lpPop [LObj.mk 1, LObj.mk 2] (.idx 2)) = true :=
  ⟨c8_pop_member_else_position.1 [LObj.mk 1, LObj.mk 2] (LObj.mk 2)
    (by decide),
   c8_pop_member_else_position.2.2 [LObj.mk 1, LObj.mk 2] 2 (by decide)⟩

/-! ## Claim C5: `ListPanel.__setitem__` validation -/

theorem intRange_single (i : Int) : intRange i (i + 1) = [i] := by
  have h1 : (i + 1 - i).toNat = 1 := by omega
  rw [intRange, h1]
  rfl

theorem intRange_cons {a b : Int} (h : a < b) :
    intRange a b = a :: intRange (a + 1) b := by
  have h1 : (b - a).toNat = (b - (a + 1)).toNat + 1 := by omega
  rw [intRange, h1, intRange]
  rfl

theorem pySet_none_of_ge {α : Type} (l : List α) (i : Int) (v : α)
    (h : (l.length : Int) ≤ i) : pySet l i v = none := by
  have hc1 : ¬(0 ≤ i ∧ i < (l.length : Int)) := by omega
  have hc2 : ¬(-(l.length : Int) ≤ i ∧ i < 0) := by omega
  simp [pySet, hc1, hc2]

theorem pySet_length {α : Type} (l : List α) (i : Int) (v : α)
    (l2 : List α) (h : pySet l i v = some l2) : l2.length = l.length := by
  by_cases hc1 : 0 ≤ i ∧ i < (l.length : Int)
  · simp only [pySet, if_pos hc1] at h
    injection h with h
    rw [← h]
    simp
  · by_cases hc2 : -(l.length : Int) ≤ i ∧ i < 0
    · simp only [pySet, if_neg hc1, if_pos hc2] at h
      injection h with h
      rw [← h]
      simp
    · simp [pySet, hc1, hc2] at h

theorem seqOpt_map_some {α : Type} :
    ∀ l : List α, seqOpt (l.map some) = some l
  | [] => rfl
  | a :: l => by simp [seqOpt, seqOpt_map_some l]

theorem intRange_empty {a b : Int} (h : b ≤ a) : intRange a b = [] := by
  have h1 : (b - a).toNat = 0 := by omega
  rw [intRange, h1]
  rfl

/-- The assignment loop writes `panes` into consecutive positions
starting right after `pre`, when the scratch area is long enough. -/
theorem setLoop_fill :
    ∀ (panes : List LObj) (pre tail : List (Option LObj)),
      tail.length = panes.length →
      setLoop (pre ++ tail)
        (intRange (pre.length : Int)
          ((pre.length : Int) + (panes.length : Int))) panes =
        some (pre ++ panes.map some)
  | [], pre, tail, h => by
    have htail : tail = [] := List.eq_nil_of_length_eq_zero h
    subst htail
    rw [intRange_empty (by simp)]
    simp [setLoop]
  | p :: ps, pre, tail, h => by
    cases tail with
    | nil => simp at h
    | cons t0 ts =>
        have hts : ts.length = ps.length := by
          simp only [List.length_cons] at h
          omega
        have hlt : (pre.length : Int) <
            (pre.length : Int) + ((p :: ps).length : Int) := by
          simp only [List.length_cons]
          omega
        rw [intRange_cons hlt]
        have hin : 0 ≤ (pre.length : Int) ∧
            (pre.length : Int) < ((pre ++ t0 :: ts).length : Int) := by
          simp only [List.length_append, List.length_cons]
          omega
        have hset : pySet (pre ++ t0 :: ts) (pre.length : Int)
            (some (panelWrap p)) =
            some (pre ++ some p :: ts) := by
          simp only [pySet, if_pos hin, Int.toNat_ofNat]
          rw [List.set_append_right pre.length (some (panelWrap p))
            (Nat.le_refl pre.length)]
          simp [panelWrap]
        have hstep := setLoop_fill ps (pre ++ [some p]) ts hts
        have e2 : ((pre ++ [some p]).length : Int) =
            (pre.length : Int) + 1 := by
          simp
        rw [e2] at hstep
        have e3 : (pre.length : Int) + 1 + (ps.length : Int) =
            (pre.length : Int) + ((p :: ps).length : Int) := by
          simp only [List.length_cons]
          push_cast
          omega
        rw [e3] at hstep
        have e4 : pre ++ [some p] ++ ts = pre ++ some p :: ts := by
          simp
        rw [e4] at hstep
        have e5 : pre ++ [some p] ++ List.map some ps =
            pre ++ List.map some (p :: ps) := by
          simp
        rw [e5] at hstep
        simp only [setLoop, hset, hstep]

/-- Claim C5: `__setitem__` raises an index error exactly as described -
an integer index at or past the length (only strictly smaller indices
succeed, replacing that slot), a bounded slice whose stop exceeds the
length, a bounded slice whose list right-hand side does not have exactly
`stop - start` items, a non-list right-hand side for any slice - and a
fully-open slice with a list right-hand side replaces the whole
collection by exactly those items; a raising call leaves the child list
unchanged. -/
theorem c5_setitem_validation :
    (∀ (wr : List LObj → LObj) (os : List LObj) (i : Int) (r : RHS),
      (os.length : Int) ≤ i →
      isErr (lpSetitem wr os (.int i) r) = true) ∧
    (∀ (wr : List LObj → LObj) (os : List LObj) (i : Int) (r : RHS),
      0 ≤ i → i < (os.length : Int) →
      lpSetitem wr os (.int i) r =
        .ok (os.set i.toNat (rhsAsSingle wr r))) ∧
    (∀ (wr : List LObj → LObj) (os : List LObj) (a : Option Int) (v : Int)
      (r : RHS), (os.length : Int) < v →
      isErr (lpSetitem wr os (.slice a (some v)) r) = true) ∧
    (∀ (wr : List LObj → LObj) (os : List LObj) (a b : Option Int)
      (xs : List LObj), ¬(a = none ∧ b = none) →
      b.getD (os.length : Int) ≤ (os.length : Int) →
      (xs.length : Int) ≠ b.getD (os.length : Int) - a.getD 0 →
      isErr (lpSetitem wr os (.slice a b) (.list xs)) = true) ∧
    (∀ (wr : List LObj → LObj) (os : List LObj) (a b : Option Int)
      (s : LObj), isErr (lpSetitem wr os (.slice a b) (.scalar s)) = true) ∧
    (∀ (wr : List LObj → LObj) (os : List LObj) (xs : List LObj),
      lpSetitem wr os (.slice none none) (.list xs) = .ok xs) ∧
    (∀ (wr : List LObj → LObj) (os : List LObj) (idx : LIdx) (r : RHS)
      (e : String), lpSetitem wr os idx r = .error e →
      applyLpSetitem wr os idx r = os) := by
  refine ⟨?_, ?_, ?_, ?_, ?_, ?_, ?_⟩
  · intro wr os i r h
    by_cases hgt : i > (os.length : Int)
    · simp [lpSetitem, hgt, isErr]
    · have heq : ¬ i > (os.length : Int) := hgt
      have hge : (os.length : Int) ≤ i := h
      simp only [lpSetitem, if_neg heq, finishLoop, intRange_single,
        setLoop]
      rw [pySet_none_of_ge _ i _ (by simpa using hge)]
      rfl
  · intro wr os i r h0 hlt
    have hgt : ¬ i > (os.length : Int) := by omega
    have hin : 0 ≤ i ∧ i < ((os.map some).length : Int) := by
      simp only [List.length_map]
      exact ⟨h0, hlt⟩
    have hset : pySet (os.map some) i (some (panelWrap (rhsAsSingle wr r))) =
        some ((os.set i.toNat (rhsAsSingle wr r)).map some) := by
      simp only [pySet, if_pos hin]
      rw [List.map_set]
      simp [panelWrap]
    simp only [lpSetitem, if_neg hgt, finishLoop, intRange_single, setLoop,
      hset, seqOpt_map_some]
  · intro wr os a v r h
    have hcond : ¬(a = none ∧ (some v : Option Int) = none) := by
      intro hc
      exact Option.some_ne_none v hc.2
    cases r with
    | scalar s => simp [lpSetitem, hcond, h, isErr]
    | list xs => simp [lpSetitem, hcond, h, isErr]
  · intro wr os a b xs hcond hle hne
    have hgt : ¬ (os.length : Int) < b.getD (os.length : Int) := by omega
    simp [lpSetitem, hcond, hgt, hne, isErr]
  · intro wr os a b s
    by_cases hcond : a = none ∧ b = none
    · simp [lpSetitem, hcond, isErr]
    · by_cases hgt : (os.length : Int) < b.getD (os.length : Int)
      · simp [lpSetitem, hcond, hgt, isErr]
      · simp [lpSetitem, hcond, hgt, isErr]
  · intro wr os xs
    have hmap : xs.map panelWrap = xs := by
      induction xs with
      | nil => rfl
      | cons a l ih => simp only [List.map_cons, ih]; rfl
    have hfill := setLoop_fill (xs.map panelWrap) []
      (List.replicate xs.length none) (by simp)
    rw [hmap] at hfill
    have e1 : ((([] : List (Option LObj)).length : Int)) = 0 := by
      simp
    rw [e1] at hfill
    have e2 : (0 : Int) + (xs.length : Int) = (xs.length : Int) := by
      omega
    rw [e2] at hfill
    simp only [List.nil_append] at hfill
    simp [lpSetitem, finishLoop, hmap, hfill, seqOpt_map_some]
  · intro wr os idx r e h
    simp [applyLpSetitem, h]

/-- Witness for claim C5 at concrete inputs: index 2 on a two-element
list raises, index 1 replaces that slot, a bounded slice with stop 3
raises, and a fully-open slice replaces the whole collection. -/
theorem c5_setitem_validation_witness :
    isErr (lpSetitem (fun _ => LObj.mk 9) [LObj.mk 1, LObj.mk 2] (.int 2)
      (.scalar (LObj.mk 3))) = true ∧
    lpSetitem (fun _ => LObj.mk 9) [LObj.mk 1, LObj.mk 2] (.int 1)
      (.scalar (LObj.mk 3)) =
      .ok ([LObj.mk 1, LObj.mk 2].set (Int.toNat 1)
        (rhsAsSingle (fun _ => LObj.mk 9) (.scalar (LObj.mk 3)))) ∧
    isErr (lpSetitem (fun _ => LObj.mk 9) [LObj.mk 1, LObj.mk 2]
      (.slice (some 0) (some 3)) (.list [LObj.mk 3])) = true ∧
    lpSetitem (fun _ => LObj.mk 9) [LObj.mk 1, LObj.mk 2]
      (.slice none none) (.list [LObj.mk 3]) = .ok [LObj.mk 3] :=
  ⟨c5_setitem_validation.1 (fun _ => LObj.mk 9) [LObj.mk 1, LObj.mk 2] 2
     (.scalar (LObj.mk 3)) (by decide),
   c5_setitem_validation.2.1 (fun _ => LObj.mk 9) [LObj.mk 1, LObj.mk 2] 1
     (.scalar (LObj.mk 3)) (by decide) (by decide),
   c5_setitem_validation.2.2.1 (fun _ => LObj.mk 9) [LObj.mk 1, LObj.mk 2]
     (some 0) 3 (.list [LObj.mk 3]) (by decide),
   c5_setitem_validation.2.2.2.2.2.1 (fun _ => LObj.mk 9)
     [LObj.mk 1, LObj.mk 2] [LObj.mk 3]⟩

/-! ## Claim C9: grid reads require full coverage -/

theorem mem_natRangeInterval {lo hi y : Nat} :
    y ∈ natRangeInterval lo hi ↔ lo ≤ y ∧ y < hi := by
  simp only [natRangeInterval, List.mem_map, List.mem_range]
  constructor
  · rintro ⟨k, hk, rfl⟩
    omega
  · intro h
    exact ⟨y - lo, by omega, by omega⟩

theorem mem_cellsOf {y x : Nat} :
    ∀ {rows cols : List Nat},
      ((y, x) ∈ cellsOf rows cols ↔ y ∈ rows ∧ x ∈ cols)
  | [], cols => by simp [cellsOf]
  | r :: rows, cols => by
    simp only [cellsOf, List.mem_append, List.mem_map, List.mem_cons,
      @mem_cellsOf y x rows cols]
    constructor
    · rintro (⟨x0, hx0, he⟩ | ⟨h1, h2⟩)
      · injection he with h1 h2
        subst h1
        subst h2
        exact ⟨Or.inl rfl, hx0⟩
      · exact ⟨Or.inr h1, h2⟩
    · rintro ⟨hy | hy, hx⟩
      · subst hy
        exact Or.inl ⟨x, hx, rfl⟩
      · exact Or.inr ⟨hy, hx⟩

theorem ownerCell_aux (g : GridSpec) (y x : Nat) :
    ∀ (l : List (GKey × GObj)) (acc : Option (GKey × GObj))
      (kv : GKey × GObj),
      l.foldl (fun a kv2 => if fillCovers g kv2.1 y x then some kv2 else a)
        acc = some kv →
      (kv ∈ l ∧ fillCovers g kv.1 y x = true) ∨ acc = some kv
  | [], acc, kv, h => Or.inr h
  | e :: l, acc, kv, h => by
    rcases ownerCell_aux g y x l _ kv h with h1 | h1
    · exact Or.inl ⟨List.mem_cons_of_mem e h1.1, h1.2⟩
    · dsimp only at h1
      by_cases hc : fillCovers g e.1 y x = true
      · rw [if_pos hc] at h1
        injection h1 with h1
        subst h1
        exact Or.inl ⟨List.mem_cons_self e l, hc⟩
      · rw [if_neg hc] at h1
        exact Or.inr h1

theorem ownerCell_some (g : GridSpec) (y x : Nat) (kv : GKey × GObj)
    (h : ownerCell g y x = some kv) :
    kv ∈ g.objects ∧ fillCovers g kv.1 y x = true := by
  rcases ownerCell_aux g y x g.objects none kv h with h1 | h1
  · exact h1
  · cases h1

theorem fillCovers_to_gridCovers (g : GridSpec) (k : GKey) (y x : Nat)
    (h : fillCovers g k y x = true) (hy : y < gsNrows g.objects)
    (hx : x < gsNcols g.objects) : gridCovers g k y x = true := by
  cases hy1 : k.y1 <;> cases hx1 : k.x1 <;>
    simp only [fillCovers, gridCovers, hy1, hx1, Option.getD_some,
      Option.getD_none, decide_eq_true_eq] at h ⊢ <;> omega

theorem collectOwners_ok_all_some (g : GridSpec) :
    ∀ (cells : List (Nat × Nat)) (pairs : List (GKey × GObj)),
      collectOwners g cells = .ok pairs →
      ∀ c ∈ cells, ∃ kv, ownerCell g c.1 c.2 = some kv ∧ kv ∈ pairs
  | [], pairs, _, c, hc => by simp at hc
  | c0 :: cells, pairs, h, c, hc => by
    simp only [collectOwners] at h
    cases ho : ownerCell g c0.1 c0.2 with
    | none => rw [ho] at h; cases h
    | some kv0 =>
        rw [ho] at h
        cases hrest : collectOwners g cells with
        | error e => rw [hrest] at h; cases h
        | ok l =>
            rw [hrest] at h
            injection h with h
            subst h
            rcases List.mem_cons.mp hc with rfl | hc2
            · exact ⟨kv0, ho, List.mem_cons_self kv0 l⟩
            · obtain ⟨kv, hkv, hmem⟩ :=
                collectOwners_ok_all_some g cells l hrest c hc2
              exact ⟨kv, hkv, List.mem_cons_of_mem kv0 hmem⟩

/-- Claim C9: any grid read whose selection contains a cell not covered
by any placed region (in the resolved-rectangle sense of the occupancy
property) raises rather than returning a sentinel or a sparse sub-grid;
successful access therefore has full coverage of the selection as a
precondition. -/
theorem c9_getitem_requires_coverage (g : GridSpec) (yidx xidx : GIdx)
    (y x : Nat) (hy : y ∈ selAxis yidx (gsNrows g.objects))
    (hx : x ∈ selAxis xidx (gsNcols g.objects))
    (hunocc : occupiedB g y x = false) :
    isErr (getItem g yidx xidx) = true := by
  have hnocov : ∀ kv ∈ g.objects, ¬ gridCovers g kv.1 y x = true := by
    intro kv hkv hc
    have : occupiedB g y x = true := by
      simp only [occupiedB, List.any_eq_true]
      exact ⟨kv, hkv, hc⟩
    rw [this] at hunocc
    cases hunocc
  by_cases hOOB : fillOOB g = true
  · simp [getItem, hOOB, isErr]
  · have hOOB2 : fillOOB g = false := by
      cases hf : fillOOB g
      · rfl
      · exact absurd hf hOOB
    have howner : ∀ hy2 : y < gsNrows g.objects, ∀ hx2 : x < gsNcols g.objects,
        ∀ kv, ownerCell g y x = some kv → False := by
      intro hy2 hx2 kv hkv
      obtain ⟨hmem, hcov⟩ := ownerCell_some g y x kv hkv
      exact hnocov kv hmem (fillCovers_to_gridCovers g kv.1 y x hcov hy2 hx2)
    cases yidx with
    | int yn =>
        have hyeq : y = yn := by simpa [selAxis] using hy
        subst hyeq
        cases xidx with
        | int xn =>
            have hxeq : x = xn := by simpa [selAxis] using hx
            subst hxeq
            simp only [getItem, hOOB2, Bool.false_eq_true, if_false]
            by_cases hin : y < gsNrows g.objects ∧ x < gsNcols g.objects
            · rw [if_pos hin]
              cases ho : ownerCell g y x with
              | none => rfl
              | some kv => exact absurd ho (fun h => howner hin.1 hin.2 kv h)
            · rw [if_neg hin]
              rfl
        | slice ax bx =>
            have hxlt : x < gsNcols g.objects := by
              have := mem_natRangeInterval.mp (by simpa [selAxis, selRange] using hx)
              omega
            simp only [getItem, hOOB2, Bool.false_eq_true, if_false,
              resolveSel]
            by_cases hyn : y < gsNrows g.objects
            · rw [if_pos hyn]
              cases hco : collectOwners g
                  (cellsOf [y] (selRange ax bx (gsNcols g.objects))) with
              | error e => simp [getItemSlicePart, hco, isErr]
              | ok pairs =>
                  obtain ⟨kv, hkv, _⟩ :=
                    collectOwners_ok_all_some g _ pairs hco (y, x)
                      (mem_cellsOf.mpr ⟨by simp, by simpa [selAxis] using hx⟩)
                  exact absurd hkv (fun h => howner hyn hxlt kv h)
            · rw [if_neg hyn]
              rfl
    | slice ay b0 =>
        have hylt : y < gsNrows g.objects := by
          have := mem_natRangeInterval.mp (by simpa [selAxis, selRange] using hy)
          omega
        cases xidx with
        | int xn =>
            have hxeq : x = xn := by simpa [selAxis] using hx
            subst hxeq
            simp only [getItem, hOOB2, Bool.false_eq_true, if_false,
              resolveSel]
            by_cases hxn : x < gsNcols g.objects
            · rw [if_pos hxn]
              cases hco : collectOwners g
                  (cellsOf (selRange ay b0 (gsNrows g.objects)) [x]) with
              | error e => simp [getItemSlicePart, hco, isErr]
              | ok pairs =>
                  obtain ⟨kv, hkv, _⟩ :=
                    collectOwners_ok_all_some g _ pairs hco (y, x)
                      (mem_cellsOf.mpr ⟨by simpa [selAxis] using hy, by simp⟩)
                  exact absurd hkv (fun h => howner hylt hxn kv h)
            · rw [if_neg hxn]
              rfl
        | slice ax bx =>
            have hxlt : x < gsNcols g.objects := by
              have := mem_natRangeInterval.mp (by simpa [selAxis, selRange] using hx)
              omega
            simp only [getItem, hOOB2, Bool.false_eq_true, if_false,
              resolveSel]
            cases hco : collectOwners g
                (cellsOf (selRange ay b0 (gsNrows g.objects))
                  (selRange ax bx (gsNcols g.objects))) with
            | error e => simp [getItemSlicePart, hco, isErr]
            | ok pairs =>
                obtain ⟨kv, hkv, _⟩ :=
                  collectOwners_ok_all_some g _ pairs hco (y, x)
                    (mem_cellsOf.mpr ⟨by simpa [selAxis] using hy,
                      by simpa [selAxis] using hx⟩)
                exact absurd hkv (fun h => howner hylt hxlt kv h)

/-- Fixture grid for the C9 witness: a single unit region at the
origin. -/
def c9Grid : GridSpec :=
  { objects := [({ y0 := some 0, x0 := some 0, y1 := some 1, x1 := some 1 },
                 { id := 1 })],
    width := some 600, height := some 600,
    maxWidth := none, maxHeight := none }

/-- Witness for claim C9: the scalar read `c9Grid[1, 0]` addresses the
uncovered cell `(1, 0)` and raises. -/
theorem c9_getitem_requires_coverage_witness :
    (1, 0) ∈ (selAxis (.int 1) (gsNrows c9Grid.objects)).map
      (fun y => (y, 0)) ∧
    occupiedB c9Grid 1 0 = false ∧
    isErr (getItem c9Grid (.int 1) (.int 0)) = true :=
  ⟨by decide, by decide,
   c9_getitem_requires_coverage c9Grid (.int 1) (.int 0) 1 0 (by decide)
     (by decide) (by decide)⟩

/-! ## Claim C6: the tabs label/child length invariant -/

theorem pyPop_length {α : Type} (l : List α) (i : Int) (l2 : List α)
    (h : pyPop l i = some l2) : l2.length + 1 = l.length := by
  by_cases hc1 : 0 ≤ i ∧ i < (l.length : Int)
  · simp only [pyPop, if_pos hc1] at h
    injection h with h
    rw [← h]
    have hlt : i.toNat < l.length := by omega
    rw [List.length_eraseIdx_of_lt hlt]
    omega
  · by_cases hc2 : -(l.length : Int) ≤ i ∧ i < 0
    · simp only [pyPop, if_neg hc1, if_pos hc2] at h
      injection h with h
      rw [← h]
      have hlt : (i + l.length).toNat < l.length := by omega
      rw [List.length_eraseIdx_of_lt hlt]
      omega
    · simp [pyPop, hc1, hc2] at h

theorem pyInsert_length {α : Type} (l : List α) (i : Int) (v : α) :
    (pyInsert l i v).length = l.length + 1 := by
  by_cases h0 : 0 ≤ i
  · simp only [pyInsert, if_pos h0]
    exact List.length_insertIdx _ _ (by omega)
  · simp only [pyInsert, if_neg h0]
    exact List.length_insertIdx _ _ (by omega)

theorem seqOpt_length {α : Type} :
    ∀ (l : List (Option α)) (r : List α), seqOpt l = some r →
      r.length = l.length
  | [], r, h => by
    injection h with h
    subst h
    rfl
  | none :: l, r, h => by simp [seqOpt] at h
  | some a :: l, r, h => by
    simp only [seqOpt] at h
    cases hrest : seqOpt l with
    | none => rw [hrest] at h; cases h
    | some r0 =>
        rw [hrest] at h
        injection h with h
        rw [← h]
        simp only [List.length_cons, seqOpt_length l r0 hrest]

theorem tabsSetLoop_lengths :
    ∀ (idxs : List Int) (items : List Item) (bO : List (Option TObj))
      (bN : List (Option String)) (bO2 : List (Option TObj))
      (bN2 : List (Option String)),
      tabsSetLoop bO bN idxs items = some (bO2, bN2) →
      bO2.length = bO.length ∧ bN2.length = bN.length
  | [], items, bO, bN, bO2, bN2, h => by
    cases items with
    | nil =>
        simp only [tabsSetLoop] at h
        injection h with h
        injection h with h1 h2
        rw [← h1, ← h2]
        exact ⟨rfl, rfl⟩
    | cons it its =>
        simp only [tabsSetLoop] at h
        injection h with h
        injection h with h1 h2
        rw [← h1, ← h2]
        exact ⟨rfl, rfl⟩
  | i :: is, [], bO, bN, bO2, bN2, h => by
    simp only [tabsSetLoop] at h
    injection h with h
    injection h with h1 h2
    rw [← h1, ← h2]
    exact ⟨rfl, rfl⟩
  | i :: is, it :: its, bO, bN, bO2, bN2, h => by
    simp only [tabsSetLoop] at h
    cases hO : pySet bO i (some (toObjectAndName it).1) with
    | none => rw [hO] at h; cases h
    | some bO1 =>
        rw [hO] at h
        cases hN : pySet bN i (some (toObjectAndName it).2) with
        | none => rw [hN] at h; cases h
        | some bN1 =>
            rw [hN] at h
            obtain ⟨e1, e2⟩ := tabsSetLoop_lengths is its bO1 bN1 bO2 bN2 h
            exact ⟨e1.trans (pySet_length bO i _ bO1 hO),
                   e2.trans (pySet_length bN i _ bN1 hN)⟩

theorem tabsFinishLoop_inv (bO : List (Option TObj))
    (bN : List (Option String)) (idxs : List Int) (items : List Item)
    (st2 : TabsState) (h : tabsFinishLoop bO bN idxs items = .ok st2)
    (hlen : bN.length = bO.length) :
    st2.names.length = st2.objects.length := by
  simp only [tabsFinishLoop] at h
  cases hl : tabsSetLoop bO bN idxs items with
  | none => rw [hl] at h; cases h
  | some p =>
      obtain ⟨pO, pN⟩ := p
      rw [hl] at h
      simp only [] at h
      cases hsO : seqOpt pO with
      | none => rw [hsO] at h; cases h
      | some os =>
          rw [hsO] at h
          cases hsN : seqOpt pN with
          | none => rw [hsN] at h; cases h
          | some ns =>
              rw [hsN] at h
              injection h with h
              obtain ⟨e1, e2⟩ := tabsSetLoop_lengths idxs items bO bN pO pN hl
              rw [← h]
              have hO2 := seqOpt_length pO os hsO
              have hN2 := seqOpt_length pN ns hsN
              simp only []
              omega

/-- The tab container's structural invariant: one label per child. -/
def TabsInv (st : TabsState) : Prop :=
  st.names.length = st.objects.length

/-- Claim C6: every public mutation of a tabbed container - construction,
append, insert, pop, remove, reverse, extend, clear, index and slice
assignment - preserves `len(_names) == len(objects)`, also when the call
raises (a raising call leaves both collections untouched); consequently
the invariant holds after any finite call sequence, and the concrete
sequence `append(("X", c)); pop(0)` ends with an empty label list. -/
theorem c6_names_objects_lockstep :
    (∀ items : List Item, TabsInv (mkTabs items)) ∧
    (∀ (st : TabsState) (op : TOp), TabsInv st → TabsInv (tabsStep st op)) ∧
    (∀ (st : TabsState) (ops : List TOp), TabsInv st →
      TabsInv (tabsRun st ops)) ∧
    tabsRun (mkTabs []) [.append (.named "X" { id := 5, name := "c" }),
      .pop (.idx 0)] = { objects := [], names := [] } := by
  have hstep : ∀ (st : TabsState) (op : TOp), TabsInv st →
      TabsInv (tabsStep st op) := by
    intro st op hInv
    cases op with
    | append it =>
        simp only [tabsStep, tabsAppend, TabsInv] at hInv ⊢
        simp [hInv]
    | insert i it =>
        simp only [tabsStep, tabsInsert, TabsInv] at hInv ⊢
        simp [pyInsert_length, hInv]
    | pop a =>
        cases a with
        | obj p =>
            simp only [tabsStep, tabsPop]
            cases hfi : firstIdx st.objects p with
            | none => exact hInv
            | some i =>
                dsimp only
                cases hO : pyPop st.objects (i : Int) with
                | none => exact hInv
                | some os =>
                    cases hN : pyPop st.names (i : Int) with
                    | none => exact hInv
                    | some ns =>
                        simp only [TabsInv] at hInv ⊢
                        have e1 := pyPop_length st.objects _ os hO
                        have e2 := pyPop_length st.names _ ns hN
                        omega
        | idx i =>
            simp only [tabsStep, tabsPop]
            cases hO : pyPop st.objects i with
            | none => exact hInv
            | some os =>
                cases hN : pyPop st.names i with
                | none => exact hInv
                | some ns =>
                    simp only [TabsInv] at hInv ⊢
                    have e1 := pyPop_length st.objects _ os hO
                    have e2 := pyPop_length st.names _ ns hN
                    omega
    | remove p =>
        simp only [tabsStep, tabsRemove]
        cases hfi : firstIdx st.objects p with
        | none => exact hInv
        | some i =>
            dsimp only
            cases hN : pyPop st.names (i : Int) with
            | none => simp only []; exact hInv
            | some ns =>
                simp only [TabsInv] at hInv ⊢
                have e2 := pyPop_length st.names _ ns hN
                have hlt : i < st.objects.length :=
                  firstIdx_lt_length st.objects p i hfi
                rw [List.length_eraseIdx_of_lt hlt] at *
                omega
    | reverse =>
        simp only [tabsStep, tabsReverse, TabsInv] at hInv ⊢
        simp [hInv]
    | extend its =>
        simp only [tabsStep, tabsExtend, toObjectsAndNames, TabsInv]
          at hInv ⊢
        simp [hInv]
    | clear =>
        simp only [tabsStep, tabsClear, TabsInv]
        rfl
    | setInt i it =>
        simp only [tabsStep, tabsSetInt]
        by_cases hgt : i > (st.objects.length : Int)
        · rw [if_pos hgt]
          exact hInv
        · rw [if_neg hgt]
          cases hfl : tabsFinishLoop (st.objects.map some)
              (st.names.map some) (intRange i (i + 1)) [it] with
          | ok st2 =>
              simp only []
              exact tabsFinishLoop_inv _ _ _ _ st2 hfl
                (by simp [TabsInv] at hInv; simp [hInv])
          | error e => simp only []; exact hInv
    | setSlice a b r =>
        simp only [tabsStep, tabsSetSlice]
        by_cases hcond : a = none ∧ b = none
        · rw [if_pos hcond]
          cases r with
          | scalar it => exact hInv
          | list its =>
              dsimp only
              cases hfl : tabsFinishLoop (List.replicate its.length none)
                  (List.replicate its.length none)
                  (intRange 0 its.length) its with
              | ok st2 =>
                  simp only []
                  exact tabsFinishLoop_inv _ _ _ _ st2 hfl (by simp)
              | error e => simp only []; exact hInv
        · rw [if_neg hcond]
          by_cases hgt : b.getD (st.objects.length : Int) >
              (st.objects.length : Int)
          · rw [if_pos hgt]
            exact hInv
          · rw [if_neg hgt]
            cases r with
            | scalar it => exact hInv
            | list its =>
                dsimp only
                by_cases hexp : ((its.length : Int) ≠
                    b.getD (st.objects.length : Int) - a.getD 0)
                · rw [if_pos hexp]
                  exact hInv
                · rw [if_neg hexp]
                  cases hfl : tabsFinishLoop (st.objects.map some)
                      (st.names.map some)
                      (intRange (a.getD 0)
                        (b.getD (st.objects.length : Int))) its with
                  | ok st2 =>
                      simp only []
                      exact tabsFinishLoop_inv _ _ _ _ st2 hfl
                        (by simp [TabsInv] at hInv; simp [hInv])
                  | error e => simp only []; exact hInv
  refine ⟨?_, hstep, ?_, ?_⟩
  · intro items
    simp [mkTabs, toObjectsAndNames, TabsInv]
  · intro st ops
    induction ops generalizing st with
    | nil => intro h; exact h
    | cons op ops ih =>
        intro h
        exact ih (tabsStep st op) (hstep st op h)
  · rfl

/-- Witness for claim C6: the invariant is preserved across a concrete
raising call (`pop(5)` on a one-tab container). -/
theorem c6_names_objects_lockstep_witness :
    TabsInv (tabsStep (mkTabs [.named "X" { id := 5, name := "c" }])
      (.pop (.idx 5))) :=
  c6_names_objects_lockstep.2.1
    (mkTabs [.named "X" { id := 5, name := "c" }]) (.pop (.idx 5)) rfl

/-! ## Claim C2: reconciliation reuse, creation and disposal -/

theorem cid_mem_allIds (o : Component) : o.cid ∈ allIds o := by
  cases o with
  | node i cs => simp [allIds, Component.cid]

theorem ledgerGet_remove_other (k j : Nat) (h : j ≠ k) :
    ∀ (l : List (Nat × Nat)),
      ledgerGet (ledgerRemove l k) j = ledgerGet l j := by
  intro l
  induction l with
  | nil => rfl
  | cons e t ih =>
      by_cases hek : e.1 = k
      · have hej : ¬ (e.1 = j) := by omega
        simp only [ledgerRemove, ledgerGet] at ih ⊢
        rw [List.filter_cons_of_neg (by simp [hek])]
        rw [List.find?_cons_of_neg t (by simp [hej])]
        exact ih
      · simp only [ledgerRemove, ledgerGet] at ih ⊢
        rw [List.filter_cons_of_pos (by simp [hek])]
        by_cases hej : e.1 = j
        · rw [List.find?_cons_of_pos _ (by simp [hej]),
            List.find?_cons_of_pos t (by simp [hej])]
        · rw [List.find?_cons_of_neg _ (by simp [hej]),
            List.find?_cons_of_neg t (by simp [hej])]
          exact ih

theorem ledgerGet_map_set (k v j : Nat) (h : j ≠ k) :
    ∀ (l : List (Nat × Nat)),
      ledgerGet (l.map (fun e => if e.1 = k then (k, v) else e)) j =
        ledgerGet l j := by
  intro l
  induction l with
  | nil => rfl
  | cons e t ih =>
      simp only [List.map_cons, ledgerGet] at ih ⊢
      by_cases hek : e.1 = k
      · rw [if_pos hek]
        have hej : ¬ (e.1 = j) := by omega
        rw [List.find?_cons_of_neg _ (by simp; omega)]
        rw [List.find?_cons_of_neg t (by simp [hej])]
        exact ih
      · rw [if_neg hek]
        by_cases hej : e.1 = j
        · rw [List.find?_cons_of_pos _ (by simp [hej]),
            List.find?_cons_of_pos t (by simp [hej])]
        · rw [List.find?_cons_of_neg _ (by simp [hej]),
            List.find?_cons_of_neg t (by simp [hej])]
          exact ih

theorem ledgerGet_append_other (k v j : Nat) (h : j ≠ k) :
    ∀ (l : List (Nat × Nat)),
      ledgerGet (l ++ [(k, v)]) j = ledgerGet l j := by
  intro l
  induction l with
  | nil =>
      simp only [List.nil_append, ledgerGet]
      rw [List.find?_cons_of_neg _ (by simp; omega)]
  | cons e t ih =>
      simp only [List.cons_append, ledgerGet] at ih ⊢
      by_cases hej : e.1 = j
      · rw [List.find?_cons_of_pos _ (by simp [hej]),
          List.find?_cons_of_pos t (by simp [hej])]
      · rw [List.find?_cons_of_neg _ (by simp [hej]),
          List.find?_cons_of_neg t (by simp [hej])]
        exact ih

theorem ledgerGet_set_other (l : List (Nat × Nat)) (k v j : Nat)
    (h : j ≠ k) : ledgerGet (ledgerSet l k v) j = ledgerGet l j := by
  simp only [ledgerSet]
  by_cases hmem : l.any (fun e => decide (e.1 = k)) = true
  · rw [if_pos hmem]
    exact ledgerGet_map_set k v j h l
  · rw [if_neg hmem]
    exact ledgerGet_append_other k v j h l

mutual

theorem getModel_disposed : ∀ (c : Component) (st : RenderState),
    ((getModel c st).2).disposed = st.disposed
  | .node i cs, st => by
    simp only [getModel]
    exact createAll_disposed cs _

theorem createAll_disposed : ∀ (cs : List Component) (st : RenderState),
    (createAll cs st).disposed = st.disposed
  | [], st => rfl
  | c :: cs, st => by
    simp only [createAll]
    rw [createAll_disposed cs _, getModel_disposed c st]

end

mutual

theorem getModel_fresh_le : ∀ (c : Component) (st : RenderState),
    st.fresh ≤ ((getModel c st).2).fresh
  | .node i cs, st => by
    simp only [getModel]
    have h := createAll_fresh_le cs { st with fresh := st.fresh + 1 }
    simp only [] at h
    omega

theorem createAll_fresh_le : ∀ (cs : List Component) (st : RenderState),
    st.fresh ≤ (createAll cs st).fresh
  | [], st => Nat.le_refl _
  | c :: cs, st => by
    simp only [createAll]
    exact Nat.le_trans (getModel_fresh_le c st)
      (createAll_fresh_le cs (getModel c st).2)

end

mutual

theorem getModel_ledger_outside : ∀ (c : Component) (st : RenderState)
    (k : Nat), k ∉ allIds c →
    ledgerGet ((getModel c st).2).ledger k = ledgerGet st.ledger k
  | .node i cs, st, k, hk => by
    simp only [allIds, List.mem_cons] at hk
    push_neg at hk
    simp only [getModel]
    rw [ledgerGet_set_other _ _ _ _ hk.1]
    exact createAll_ledger_outside cs _ k hk.2

theorem createAll_ledger_outside : ∀ (cs : List Component)
    (st : RenderState) (k : Nat), k ∉ allIdsList cs →
    ledgerGet (createAll cs st).ledger k = ledgerGet st.ledger k
  | [], st, k, hk => rfl
  | c :: cs, st, k, hk => by
    simp only [allIdsList, List.mem_append] at hk
    push_neg at hk
    simp only [createAll]
    rw [createAll_ledger_outside cs _ k hk.2,
      getModel_ledger_outside c st k hk.1]

end

mutual

theorem cleanup_disposed : ∀ (c : Component) (st : RenderState),
    (cleanup c st).disposed = st.disposed ++ allIds c
  | .node i cs, st => by
    simp only [cleanup, allIds]
    rw [cleanupList_disposed cs _]
    simp

theorem cleanupList_disposed : ∀ (cs : List Component) (st : RenderState),
    (cleanupList cs st).disposed = st.disposed ++ allIdsList cs
  | [], st => by simp [cleanupList, allIdsList]
  | c :: cs, st => by
    simp only [cleanupList, allIdsList]
    rw [cleanupList_disposed cs _, cleanup_disposed c st]
    simp

end

theorem cleanupGone_disposed (objects : List Component) :
    ∀ (old : List Component) (st : RenderState),
      (cleanupGone objects old st).disposed =
        st.disposed ++ allIdsList (old.filter (fun o => !memObj o objects))
  | [], st => by simp [cleanupGone, allIdsList]
  | o :: old, st => by
    simp only [cleanupGone, List.foldl_cons]
    by_cases hm : memObj o objects = true
    · rw [if_pos hm]
      have ih := cleanupGone_disposed objects old st
      simp only [cleanupGone] at ih
      rw [ih, List.filter_cons]
      rw [show (!memObj o objects) = false by simp [hm]]
      simp
    · have hm2 : memObj o objects = false := by
        cases h2 : memObj o objects
        · rfl
        · exact absurd h2 hm
      rw [if_neg (by simp [hm2])]
      have ih := cleanupGone_disposed objects old (cleanup o st)
      simp only [cleanupGone] at ih
      rw [ih, cleanup_disposed o st, List.filter_cons]
      rw [show (!memObj o objects) = true by simp [hm2]]
      simp only [allIdsList, if_true]
      rw [List.append_assoc]

/-- Pairwise id-disjointness of a component forest (distinct previous
children own disjoint id sets; Python object identity guarantees this
for the real object graph). -/
def SepForest (old : List Component) : Prop :=
  List.Pairwise (fun a b => ∀ k ∈ allIds a, k ∉ allIds b) old

theorem sepForest_disjoint_or_eq :
    ∀ (l : List Component), SepForest l →
      ∀ a ∈ l, ∀ b ∈ l, a = b ∨ (∀ k ∈ allIds a, k ∉ allIds b)
  | [], _, a, ha, b, hb => by simp at ha
  | c :: cs, h, a, ha, b, hb => by
    obtain ⟨hd, ht⟩ := List.pairwise_cons.mp h
    rcases List.mem_cons.mp ha with rfl | ha2
    · rcases List.mem_cons.mp hb with rfl | hb2
      · exact Or.inl rfl
      · exact Or.inr (hd b hb2)
    · rcases List.mem_cons.mp hb with rfl | hb2
      · refine Or.inr (fun k hk hkb => ?_)
        exact hd a ha2 k hkb hk
      · exact sepForest_disjoint_or_eq cs ht a ha2 b hb2

theorem count_allIdsList_zero (k : Nat) (pred : Component → Bool) :
    ∀ (l : List Component), (∀ o ∈ l, k ∉ allIds o) →
      (allIdsList (l.filter pred)).count k = 0
  | [], _ => rfl
  | o :: l, h => by
    rw [List.filter_cons]
    by_cases hp : pred o = true
    · rw [if_pos hp]
      simp only [allIdsList, List.count_append]
      rw [count_allIdsList_zero k pred l
        (fun o2 h2 => h o2 (List.mem_cons_of_mem _ h2))]
      rw [List.count_eq_zero.mpr (h o (List.mem_cons_self o l))]
    · rw [if_neg hp]
      exact count_allIdsList_zero k pred l
        (fun o2 h2 => h o2 (List.mem_cons_of_mem _ h2))

theorem count_allIdsList_filter (objects : List Component) :
    ∀ (old : List Component), SepForest old →
      (∀ o ∈ old, (allIds o).Nodup) →
      ∀ o ∈ old,
        (memObj o objects = false →
          (allIdsList (old.filter (fun o2 => !memObj o2 objects))).count
            o.cid = 1) ∧
        (memObj o objects = true →
          (allIdsList (old.filter (fun o2 => !memObj o2 objects))).count
            o.cid = 0)
  | [], _, _, o, ho => by simp at ho
  | h0 :: old, hsep, hnd, o, ho => by
    obtain ⟨hd, ht⟩ := List.pairwise_cons.mp hsep
    rcases List.mem_cons.mp ho with rfl | ho2
    · constructor
      · intro hm
        rw [List.filter_cons]
        rw [show (!memObj o objects) = true by simp [hm]]
        simp only [allIdsList, List.count_append]
        rw [List.count_eq_one_of_mem (hnd o (List.mem_cons_self o old))
          (cid_mem_allIds o)]
        rw [count_allIdsList_zero o.cid _ old
          (fun o2 h2 => hd o2 h2 o.cid (cid_mem_allIds o))]
      · intro hm
        rw [List.filter_cons]
        rw [show (!memObj o objects) = false by simp [hm]]
        exact count_allIdsList_zero o.cid _ old
          (fun o2 h2 => hd o2 h2 o.cid (cid_mem_allIds o))
    · have hnocid : o.cid ∉ allIds h0 := by
        intro hc
        exact hd o ho2 o.cid hc (cid_mem_allIds o)
      have ih := count_allIdsList_filter objects old ht
        (fun o2 h2 => hnd o2 (List.mem_cons_of_mem _ h2)) o ho2
      constructor
      · intro hm
        rw [List.filter_cons]
        by_cases hp : (!memObj h0 objects) = true
        · rw [if_pos hp]
          simp only [allIdsList, List.count_append]
          rw [List.count_eq_zero.mpr hnocid]
          rw [ih.1 hm]
        · rw [if_neg hp]
          exact ih.1 hm
      · intro hm
        rw [List.filter_cons]
        by_cases hp : (!memObj h0 objects) = true
        · rw [if_pos hp]
          simp only [allIdsList, List.count_append]
          rw [List.count_eq_zero.mpr hnocid]
          rw [ih.2 hm]
        · rw [if_neg hp]
          exact ih.2 hm

/-- Id-disjointness of freshly created children from the previous set
(a current child not in the previous set is a distinct object graph). -/
def TreeSep (objects old : List Component) : Prop :=
  ∀ c ∈ objects, memObj c old = false →
    ∀ o ∈ old, ∀ k ∈ allIds c, k ∉ allIds o

/-- Some previous child owns this ledger id. -/
def OldIds (old : List Component) (k : Nat) : Prop :=
  ∃ o ∈ old, k ∈ allIds o

theorem memObj_oldIds {c : Component} {old : List Component}
    (h : memObj c old = true) : OldIds old c.cid := by
  simp only [memObj, List.any_eq_true] at h
  obtain ⟨o, ho, he⟩ := h
  rw [decide_eq_true_eq] at he
  exact ⟨o, ho, by rw [← he]; exact cid_mem_allIds o⟩

theorem getChildren_spec :
    ∀ (objects old : List Component) (st0 st : RenderState),
      (∀ k, OldIds old k → ledgerGet st.ledger k = ledgerGet st0.ledger k) →
      st0.fresh ≤ st.fresh →
      st.disposed = st0.disposed →
      (∀ c ∈ objects, memObj c old = true →
        (ledgerGet st0.ledger c.cid).isSome) →
      TreeSep objects old →
      ∃ ms st1, getChildren objects old st = some (ms, st1) ∧
        ms.length = objects.length ∧
        (∀ i c, objects.get? i = some c →
          (memObj c old = true → ms.get? i = ledgerGet st0.ledger c.cid) ∧
          (memObj c old = false →
            ∃ n, ms.get? i = some n ∧ st0.fresh ≤ n)) ∧
        (∀ k, OldIds old k →
          ledgerGet st1.ledger k = ledgerGet st0.ledger k) ∧
        st1.disposed = st0.disposed ∧ st0.fresh ≤ st1.fresh
  | [], old, st0, st, hagree, hfresh, hdisp, hok, hsep =>
    ⟨[], st, rfl, rfl, fun i c hc => by simp at hc, hagree, hdisp, hfresh⟩
  | c :: rest, old, st0, st, hagree, hfresh, hdisp, hok, hsep => by
    by_cases hm : memObj c old = true
    · have hsome : (ledgerGet st0.ledger c.cid).isSome :=
        hok c (List.mem_cons_self c rest) hm
      obtain ⟨n, hn⟩ := Option.isSome_iff_exists.mp hsome
      have hcur : ledgerGet st.ledger c.cid = some n := by
        rw [hagree c.cid (memObj_oldIds hm)]
        exact hn
      obtain ⟨ms, st1, hgc, hlen, hidx, hagree1, hdisp1, hfresh1⟩ :=
        getChildren_spec rest old st0 st hagree hfresh hdisp
          (fun c2 h2 hm2 => hok c2 (List.mem_cons_of_mem c h2) hm2)
          (fun c2 h2 hm2 => hsep c2 (List.mem_cons_of_mem c h2) hm2)
      refine ⟨n :: ms, st1, ?_, by simp [hlen], ?_, hagree1, hdisp1,
        hfresh1⟩
      · simp only [getChildren, hm, if_true, hcur, hgc]
      · intro i c2 hc2
        cases i with
        | zero =>
            simp only [List.get?] at hc2
            injection hc2 with hc2
            subst hc2
            constructor
            · intro _
              simp only [List.get?]
              rw [hn]
            · intro hm2
              rw [hm] at hm2
              cases hm2
        | succ j =>
            simp only [List.get?] at hc2
            have := hidx j c2 hc2
            simpa using this
    · have hm2 : memObj c old = false := by
        cases h2 : memObj c old
        · rfl
        · exact absurd h2 hm
      have hagreeMid : ∀ k, OldIds old k →
          ledgerGet ((getModel c st).2).ledger k = ledgerGet st0.ledger k := by
        intro k hk
        obtain ⟨o, ho, hko⟩ := hk
        have hkc : k ∉ allIds c := by
          intro hc
          exact hsep c (List.mem_cons_self c rest) hm2 o ho k hc hko
        rw [getModel_ledger_outside c st k hkc]
        exact hagree k ⟨o, ho, hko⟩
      have hfreshMid : st0.fresh ≤ ((getModel c st).2).fresh :=
        Nat.le_trans hfresh (getModel_fresh_le c st)
      have hdispMid : ((getModel c st).2).disposed = st0.disposed := by
        rw [getModel_disposed c st]
        exact hdisp
      obtain ⟨ms, st1, hgc, hlen, hidx, hagree1, hdisp1, hfresh1⟩ :=
        getChildren_spec rest old st0 ((getModel c st).2) hagreeMid
          hfreshMid hdispMid
          (fun c2 h2 hmm => hok c2 (List.mem_cons_of_mem c h2) hmm)
          (fun c2 h2 hmm => hsep c2 (List.mem_cons_of_mem c h2) hmm)
      refine ⟨(getModel c st).1 :: ms, st1, ?_, by simp [hlen], ?_,
        hagree1, hdisp1, hfresh1⟩
      · simp only [getChildren, hm2, Bool.false_eq_true, if_false, hgc]
      · intro i c2 hc2
        cases i with
        | zero =>
            simp only [List.get?] at hc2
            injection hc2 with hc2
            subst hc2
            constructor
            · intro hmm
              exact absurd hmm hm
            · intro _
              refine ⟨(getModel c st).1, rfl, ?_⟩
              cases c with
              | node i2 cs2 =>
                  simp only [getModel]
                  exact hfresh
        | succ j =>
            simp only [List.get?] at hc2
            have := hidx j c2 hc2
            simpa using this

/-- Fixture component for the C2 scenario (child "A"). -/
def cA : Component := .node 1 []

/-- Fixture component for the C2 scenario (child "B"). -/
def cB : Component := .node 2 []

/-- Fixture component for the C2 scenario (child "C"). -/
def cC : Component := .node 3 []

/-- Render state before the C2 scenario: A and B attached with backend
nodes 10 and 11. -/
def c2St0 : RenderState := ⟨[(1, 10), (2, 11)], 12, []⟩

/-- Render state after `append(C)` in the C2 scenario. -/
def c2St1 : RenderState := ⟨[(1, 10), (2, 11), (3, 12)], 13, []⟩

/-- Render state after `pop(0)` in the C2 scenario: A's ledger entry is
gone and its disposal is logged exactly once. -/
def c2St2 : RenderState := ⟨[(2, 11), (3, 12)], 13, [1]⟩

/-- Claim C2: reconciliation returns one backend node per current child,
in order; a child present in the previous set reuses exactly the node
the ledger held before the call, any other child gets a freshly
allocated node; every previous child absent from the current collection
has its node disposed exactly once (recursively - its whole id tree is
logged once), and present children are not disposed.  Concretely,
`append(C)` then `pop(0)` on `[A, B]` leaves B's node identity (11)
unchanged through both reconciliations and disposes A exactly once. -/
theorem c2_get_objects_reconciliation :
    (∀ (objects old : List Component) (st : RenderState),
      (∀ c ∈ objects, memObj c old = true →
        (ledgerGet st.ledger c.cid).isSome) →
      TreeSep objects old →
      SepForest old →
      (∀ o ∈ old, (allIds o).Nodup) →
      ∃ ms st2, getObjects objects old st = some (ms, st2) ∧
        ms.length = objects.length ∧
        (∀ i c, objects.get? i = some c →
          (memObj c old = true → ms.get? i = ledgerGet st.ledger c.cid) ∧
          (memObj c old = false →
            ∃ n, ms.get? i = some n ∧ st.fresh ≤ n)) ∧
        (∀ o ∈ old, memObj o objects = false →
          st2.disposed.count o.cid = st.disposed.count o.cid + 1) ∧
        (∀ o ∈ old, memObj o objects = true →
          st2.disposed.count o.cid = st.disposed.count o.cid)) ∧
    getObjects [cA, cB, cC] [cA, cB] c2St0 = some ([10, 11, 12], c2St1) ∧
    getObjects [cB, cC] [cA, cB, cC] c2St1 = some ([11, 12], c2St2) ∧
    c2St2.disposed.count cA.cid = 1 := by
  refine ⟨?_, rfl, rfl, rfl⟩
  intro objects old st hok hsep hforest hnd
  obtain ⟨ms, st1, hgc, hlen, hidx, hagree1, hdisp1, hfresh1⟩ :=
    getChildren_spec objects old st st (fun k _ => rfl) (Nat.le_refl _)
      rfl hok hsep
  refine ⟨ms, cleanupGone objects old st1, ?_, hlen, hidx, ?_, ?_⟩
  · simp only [getObjects, hgc]
  · intro o ho hm
    rw [cleanupGone_disposed objects old st1, List.count_append, hdisp1]
    rw [(count_allIdsList_filter objects old hforest hnd o ho).1 hm]
  · intro o ho hm
    rw [cleanupGone_disposed objects old st1, List.count_append, hdisp1]
    rw [(count_allIdsList_filter objects old hforest hnd o ho).2 hm]
    omega

/-- Witness for claim C2 at the concrete scenario states: the general
theorem applied to the `pop(0)` step. -/
theorem c2_get_objects_reconciliation_witness :
    ∃ ms st2, getObjects [cB, cC] [cA, cB, cC] c2St1 = some (ms, st2) ∧
      ms.length = [cB, cC].length ∧
      (∀ i c, [cB, cC].get? i = some c →
        (memObj c [cA, cB, cC] = true →
          ms.get? i = ledgerGet c2St1.ledger c.cid) ∧
        (memObj c [cA, cB, cC] = false →
          ∃ n, ms.get? i = some n ∧ c2St1.fresh ≤ n)) ∧
      (∀ o ∈ [cA, cB, cC], memObj o [cB, cC] = false →
        st2.disposed.count o.cid = c2St1.disposed.count o.cid + 1) ∧
      (∀ o ∈ [cA, cB, cC], memObj o [cB, cC] = true →
        st2.disposed.count o.cid = c2St1.disposed.count o.cid) :=
  c2_get_objects_reconciliation.1 [cB, cC] [cA, cB, cC] c2St1
    (by decide) (by unfold TreeSep; decide) (by unfold SepForest; decide)
    (by decide)

/-! ## Claim C7: sub-grid extraction as a projection -/

theorem le_foldMax {a : Nat} : ∀ l : List Nat, a ∈ l → a ≤ foldMax l
  | [], h => by simp at h
  | b :: t, h => by
    rcases List.mem_cons.mp h with rfl | h2
    · exact Nat.le_max_left a (foldMax t)
    · exact Nat.le_trans (le_foldMax t h2) (Nat.le_max_right b (foldMax t))

theorem y1_le_nrows {objects : List (GKey × GObj)} {kv : GKey × GObj}
    {v : Nat} (hm : kv ∈ objects) (hv : kv.1.y1 = some v) :
    v ≤ gsNrows objects :=
  le_foldMax _ (List.mem_filterMap.mpr ⟨kv, hm, hv⟩)

theorem x1_le_ncols {objects : List (GKey × GObj)} {kv : GKey × GObj}
    {v : Nat} (hm : kv ∈ objects) (hv : kv.1.x1 = some v) :
    v ≤ gsNcols objects :=
  le_foldMax _ (List.mem_filterMap.mpr ⟨kv, hm, hv⟩)

/-- All four bounds of a key are concrete. -/
def ConcreteKey (k : GKey) : Prop :=
  k.y0.isSome ∧ k.x0.isSome ∧ k.y1.isSome ∧ k.x1.isSome

instance (k : GKey) : Decidable (ConcreteKey k) := by
  unfold ConcreteKey
  exact inferInstance

theorem fillOOB_false_of_concrete (g : GridSpec)
    (hconc : ∀ kv ∈ g.objects, ConcreteKey kv.1) : fillOOB g = false := by
  rw [fillOOB, List.any_eq_false]
  intro kv hkv
  obtain ⟨hy0, hx0, hy1, hx1⟩ := hconc kv hkv
  obtain ⟨y1v, hy1v⟩ := Option.isSome_iff_exists.mp hy1
  obtain ⟨x1v, hx1v⟩ := Option.isSome_iff_exists.mp hx1
  have hb := y1_le_nrows hkv hy1v
  have hr := x1_le_ncols hkv hx1v
  simp only [hy1v, hx1v, Option.getD_some, decide_eq_true_eq]
  omega

theorem fillCovers_eq_gridCovers_of_concrete (g : GridSpec) (k : GKey)
    (hc : ConcreteKey k) (y x : Nat) :
    fillCovers g k y x = gridCovers g k y x := by
  obtain ⟨hy0, hx0, hy1, hx1⟩ := hc
  obtain ⟨y1v, hy1v⟩ := Option.isSome_iff_exists.mp hy1
  obtain ⟨x1v, hx1v⟩ := Option.isSome_iff_exists.mp hx1
  simp only [fillCovers, gridCovers, hy1v, hx1v, Option.getD_some]

theorem gridCovers_lt (g : GridSpec) (kv : GKey × GObj)
    (hm : kv ∈ g.objects) (y x : Nat)
    (h : gridCovers g kv.1 y x = true) :
    y < gsNrows g.objects ∧ x < gsNcols g.objects := by
  simp only [gridCovers, decide_eq_true_eq] at h
  obtain ⟨h1, h2, h3, h4⟩ := h
  constructor
  · cases hy1 : kv.1.y1 with
    | none => rw [hy1] at h2; simpa using h2
    | some v =>
        rw [hy1] at h2
        simp only [Option.getD_some] at h2
        exact Nat.lt_of_lt_of_le h2 (y1_le_nrows hm hy1)
  · cases hx1 : kv.1.x1 with
    | none => rw [hx1] at h4; simpa using h4
    | some v =>
        rw [hx1] at h4
        simp only [Option.getD_some] at h4
        exact Nat.lt_of_lt_of_le h4 (x1_le_ncols hm hx1)

theorem ownerCell_foldl_nocover (g : GridSpec) (y x : Nat) :
    ∀ (l : List (GKey × GObj)) (acc : Option (GKey × GObj)),
      (∀ kv ∈ l, ¬ fillCovers g kv.1 y x = true) →
      l.foldl (fun a kv2 => if fillCovers g kv2.1 y x then some kv2 else a)
        acc = acc
  | [], acc, _ => rfl
  | e :: l, acc, h => by
    simp only [List.foldl_cons]
    rw [if_neg (h e (List.mem_cons_self e l))]
    exact ownerCell_foldl_nocover g y x l acc
      (fun kv hkv => h kv (List.mem_cons_of_mem e hkv))

theorem ownerCell_unique (g : GridSpec) (y x : Nat) (kv : GKey × GObj) :
    ∀ (l : List (GKey × GObj)) (acc : Option (GKey × GObj)),
      kv ∈ l → fillCovers g kv.1 y x = true →
      (∀ kv2 ∈ l, fillCovers g kv2.1 y x = true → kv2 = kv) →
      l.foldl (fun a kv2 => if fillCovers g kv2.1 y x then some kv2 else a)
        acc = some kv
  | [], acc, hm, _, _ => by simp at hm
  | e :: l, acc, hm, hcov, huniq => by
    by_cases hml : kv ∈ l
    · simp only [List.foldl_cons]
      exact ownerCell_unique g y x kv l _ hml hcov
        (fun kv2 h2 hc2 => huniq kv2 (List.mem_cons_of_mem e h2) hc2)
    · have hek : e = kv := by
        rcases List.mem_cons.mp hm with rfl | h2
        · rfl
        · exact absurd h2 hml
      subst hek
      simp only [List.foldl_cons]
      rw [if_pos hcov]
      exact ownerCell_foldl_nocover g y x l (some e)
        (fun kv2 h2 hc2 => hml ((huniq kv2 (List.mem_cons_of_mem e h2)
          hc2) ▸ h2))

theorem foldl_owner_some_ne_none (g : GridSpec) (y x : Nat) :
    ∀ (t : List (GKey × GObj)) (a : GKey × GObj),
      t.foldl (fun acc kv2 =>
        if fillCovers g kv2.1 y x then some kv2 else acc) (some a) ≠ none
  | [], a => by simp
  | e :: t, a => by
    simp only [List.foldl_cons]
    by_cases hc : fillCovers g e.1 y x = true
    · rw [if_pos hc]
      exact foldl_owner_some_ne_none g y x t e
    · rw [if_neg hc]
      exact foldl_owner_some_ne_none g y x t a

theorem ownerCell_foldl_ne_none (g : GridSpec) (y x : Nat) :
    ∀ (l : List (GKey × GObj)) (acc : Option (GKey × GObj))
      (kv : GKey × GObj), kv ∈ l → fillCovers g kv.1 y x = true →
      l.foldl (fun a kv2 =>
        if fillCovers g kv2.1 y x then some kv2 else a) acc ≠ none
  | [], acc, kv, hm, _ => by simp at hm
  | e :: t, acc, kv, hm, hcv => by
    simp only [List.foldl_cons]
    rcases List.mem_cons.mp hm with rfl | h2
    · rw [if_pos hcv]
      exact foldl_owner_some_ne_none g y x t kv
    · exact ownerCell_foldl_ne_none g y x t _ kv h2 hcv

theorem ownerCell_none_iff (g : GridSpec) (y x : Nat) :
    ownerCell g y x = none ↔
      ∀ kv ∈ g.objects, ¬ fillCovers g kv.1 y x = true := by
  constructor
  · intro h kv hkv hc
    exact ownerCell_foldl_ne_none g y x g.objects none kv hkv hc h
  · intro h
    exact ownerCell_foldl_nocover g y x g.objects none h

theorem ownerCell_isSome_of_covered (g : GridSpec) (y x : Nat)
    (h : ∃ kv ∈ g.objects, fillCovers g kv.1 y x = true) :
    (ownerCell g y x).isSome := by
  cases ho : ownerCell g y x with
  | some kv => rfl
  | none =>
      obtain ⟨kv, hkv, hc⟩ := h
      exact absurd hc ((ownerCell_none_iff g y x).mp ho kv hkv)

theorem collectOwners_ok_of_all (g : GridSpec) :
    ∀ (cells : List (Nat × Nat)),
      (∀ c ∈ cells, (ownerCell g c.1 c.2).isSome) →
      ∃ pairs, collectOwners g cells = .ok pairs
  | [], _ => ⟨[], rfl⟩
  | c :: cs, h => by
    obtain ⟨kv, hkv⟩ := Option.isSome_iff_exists.mp
      (h c (List.mem_cons_self c cs))
    obtain ⟨pairs, hp⟩ := collectOwners_ok_of_all g cs
      (fun c2 h2 => h c2 (List.mem_cons_of_mem c h2))
    exact ⟨kv :: pairs, by simp only [collectOwners, hkv, hp]⟩

theorem collectOwners_mem (g : GridSpec) :
    ∀ (cells : List (Nat × Nat)) (pairs : List (GKey × GObj)),
      collectOwners g cells = .ok pairs →
      ∀ kv, (kv ∈ pairs ↔ ∃ c ∈ cells, ownerCell g c.1 c.2 = some kv)
  | [], pairs, h, kv => by
    simp only [collectOwners] at h
    injection h with h
    subst h
    simp
  | c :: cs, pairs, h, kv => by
    simp only [collectOwners] at h
    cases ho : ownerCell g c.1 c.2 with
    | none => rw [ho] at h; cases h
    | some kv0 =>
        rw [ho] at h
        cases hrest : collectOwners g cs with
        | error e => rw [hrest] at h; cases h
        | ok l =>
            rw [hrest] at h
            injection h with h
            subst h
            have ih := collectOwners_mem g cs l hrest kv
            constructor
            · intro hm
              rcases List.mem_cons.mp hm with rfl | h2
              · exact ⟨c, List.mem_cons_self c cs, ho⟩
              · obtain ⟨c2, hc2, ho2⟩ := ih.mp h2
                exact ⟨c2, List.mem_cons_of_mem c hc2, ho2⟩
            · rintro ⟨c2, hc2, ho2⟩
              rcases List.mem_cons.mp hc2 with rfl | h2
              · rw [ho] at ho2
                injection ho2 with ho2
                rw [← ho2]
                exact List.mem_cons_self kv0 l
              · exact List.mem_cons_of_mem kv0 (ih.mpr ⟨c2, h2, ho2⟩)

theorem odInsert_subset {l : List (GKey × GObj)} {kv p : GKey × GObj}
    (h : p ∈ odInsert l kv) : p ∈ l ∨ p = kv := by
  simp only [odInsert] at h
  by_cases hmem : l.any (fun e => decide (e.1 = kv.1)) = true
  · rw [if_pos hmem] at h
    obtain ⟨e, he, hpe⟩ := List.mem_map.mp h
    by_cases hek : e.1 = kv.1
    · rw [if_pos hek] at hpe
      exact Or.inr hpe.symm
    · rw [if_neg hek] at hpe
      exact Or.inl (hpe ▸ he)
  · rw [if_neg hmem] at h
    rcases List.mem_append.mp h with h2 | h2
    · exact Or.inl h2
    · simp only [List.mem_singleton] at h2
      exact Or.inr h2

theorem odFold_subset :
    ∀ (l acc : List (GKey × GObj)) (p : GKey × GObj),
      p ∈ List.foldl odInsert acc l → p ∈ acc ∨ p ∈ l
  | [], acc, p, h => Or.inl h
  | kv :: l, acc, p, h => by
    simp only [List.foldl_cons] at h
    rcases odFold_subset l (odInsert acc kv) p h with h2 | h2
    · rcases odInsert_subset h2 with h3 | h3
      · exact Or.inl h3
      · exact Or.inr (h3 ▸ List.mem_cons_self kv l)
    · exact Or.inr (List.mem_cons_of_mem kv h2)

theorem odOfList_subset {l : List (GKey × GObj)} {p : GKey × GObj}
    (h : p ∈ odOfList l) : p ∈ l := by
  rcases odFold_subset l [] p h with h2 | h2
  · simp at h2
  · exact h2

theorem odInsert_mem_self (l : List (GKey × GObj)) (kv : GKey × GObj) :
    kv ∈ odInsert l kv := by
  simp only [odInsert]
  by_cases hmem : l.any (fun e => decide (e.1 = kv.1)) = true
  · rw [if_pos hmem]
    obtain ⟨e, he, hek⟩ := List.any_eq_true.mp hmem
    rw [decide_eq_true_eq] at hek
    exact List.mem_map.mpr ⟨e, he, by rw [if_pos hek]⟩
  · rw [if_neg hmem]
    exact List.mem_append.mpr (Or.inr (List.mem_singleton.mpr rfl))

theorem odInsert_mem_preserve {l : List (GKey × GObj)}
    {p kv : GKey × GObj} (hp : p ∈ l) (hne : p.1 ≠ kv.1) :
    p ∈ odInsert l kv := by
  simp only [odInsert]
  by_cases hmem : l.any (fun e => decide (e.1 = kv.1)) = true
  · rw [if_pos hmem]
    exact List.mem_map.mpr ⟨p, hp, by rw [if_neg hne]⟩
  · rw [if_neg hmem]
    exact List.mem_append.mpr (Or.inl hp)

theorem odFold_keep {kv : GKey × GObj} :
    ∀ (rest acc : List (GKey × GObj)),
      (∀ e ∈ rest, e.1 = kv.1 → e = kv) → kv ∈ acc →
      kv ∈ List.foldl odInsert acc rest
  | [], acc, _, h => h
  | e :: rest, acc, hk, h => by
    simp only [List.foldl_cons]
    apply odFold_keep rest _ (fun e2 h2 he2 => hk e2
      (List.mem_cons_of_mem e h2) he2)
    by_cases hek : e.1 = kv.1
    · have := hk e (List.mem_cons_self e rest) hek
      subst this
      exact odInsert_mem_self acc e
    · by_cases hkk : kv.1 = e.1
      · exact absurd hkk.symm hek
      · exact odInsert_mem_preserve h hkk

theorem odOfList_mem_of_mem {l : List (GKey × GObj)}
    (hco : ∀ p ∈ l, ∀ q ∈ l, p.1 = q.1 → p = q) {kv : GKey × GObj}
    (h : kv ∈ l) : kv ∈ odOfList l := by
  rw [odOfList]
  obtain ⟨l1, l2, rfl⟩ := List.append_of_mem h
  rw [List.foldl_append]
  simp only [List.foldl_cons]
  apply odFold_keep l2 _
  · intro e he hek
    exact hco e (by simp [he]) kv (by simp) hek
  · exact odInsert_mem_self _ kv

theorem dedupPairs_subset :
    ∀ (l acc : List (GKey × GObj)) (p : GKey × GObj),
      p ∈ l.foldl (fun a q => if q ∈ a then a else a ++ [q]) acc →
      p ∈ acc ∨ p ∈ l
  | [], acc, p, h => Or.inl h
  | q :: l, acc, p, h => by
    simp only [List.foldl_cons] at h
    by_cases hq : q ∈ acc
    · rw [if_pos hq] at h
      rcases dedupPairs_subset l acc p h with h2 | h2
      · exact Or.inl h2
      · exact Or.inr (List.mem_cons_of_mem q h2)
    · rw [if_neg hq] at h
      rcases dedupPairs_subset l (acc ++ [q]) p h with h2 | h2
      · rcases List.mem_append.mp h2 with h3 | h3
        · exact Or.inl h3
        · simp only [List.mem_singleton] at h3
          exact Or.inr (h3 ▸ List.mem_cons_self q l)
      · exact Or.inr (List.mem_cons_of_mem q h2)

theorem dedupPairs_keep_acc :
    ∀ (l acc : List (GKey × GObj)) (p : GKey × GObj), p ∈ acc →
      p ∈ l.foldl (fun a q => if q ∈ a then a else a ++ [q]) acc
  | [], acc, p, h => h
  | q :: l, acc, p, h => by
    simp only [List.foldl_cons]
    by_cases hq : q ∈ acc
    · rw [if_pos hq]
      exact dedupPairs_keep_acc l acc p h
    · rw [if_neg hq]
      exact dedupPairs_keep_acc l (acc ++ [q]) p
        (List.mem_append.mpr (Or.inl h))

theorem dedupPairs_mem_of_mem :
    ∀ (l acc : List (GKey × GObj)) (p : GKey × GObj), p ∈ l →
      p ∈ l.foldl (fun a q => if q ∈ a then a else a ++ [q]) acc
  | [], acc, p, h => by simp at h
  | q :: l, acc, p, h => by
    simp only [List.foldl_cons]
    rcases List.mem_cons.mp h with rfl | h2
    · by_cases hq : p ∈ acc
      · rw [if_pos hq]
        exact dedupPairs_keep_acc l acc p hq
      · rw [if_neg hq]
        exact dedupPairs_keep_acc l (acc ++ [p]) p
          (List.mem_append.mpr (Or.inr (List.mem_singleton.mpr rfl)))
    · by_cases hq : q ∈ acc
      · rw [if_pos hq]
        exact dedupPairs_mem_of_mem l acc p h2
      · rw [if_neg hq]
        exact dedupPairs_mem_of_mem l (acc ++ [q]) p h2

theorem dedupPairs_mem {l : List (GKey × GObj)} {p : GKey × GObj} :
    p ∈ dedupPairs l ↔ p ∈ l := by
  constructor
  · intro h
    rcases dedupPairs_subset l [] p h with h2 | h2
    · simp at h2
    · exact h2
  · intro h
    exact dedupPairs_mem_of_mem l [] p h

theorem entry_eq_of_key_eq :
    ∀ (l : List (GKey × GObj)), (l.map Prod.fst).Nodup →
      ∀ p ∈ l, ∀ q ∈ l, p.1 = q.1 → p = q
  | [], _, p, hp, q, hq, h => by simp at hp
  | e :: l, hnd, p, hp, q, hq, h => by
    simp only [List.map_cons, List.nodup_cons] at hnd
    obtain ⟨hni, hnd2⟩ := hnd
    rcases List.mem_cons.mp hp with rfl | hp2
    · rcases List.mem_cons.mp hq with rfl | hq2
      · rfl
      · exact absurd (List.mem_map.mpr ⟨q, hq2, h.symm⟩) hni
    · rcases List.mem_cons.mp hq with rfl | hq2
      · exact absurd (List.mem_map.mpr ⟨p, hp2, h⟩) hni
      · exact entry_eq_of_key_eq l hnd2 p hp2 q hq2 h

theorem gsYoffset_le {objects : List (GKey × GObj)}
    (hall : ∀ kv ∈ objects, kv.1.y0.isSome) {kv : GKey × GObj}
    (hm : kv ∈ objects) {v : Nat} (hv : kv.1.y0 = some v) :
    gsYoffset objects ≤ v := by
  have hlen : (objects.filterMap (fun kv => kv.1.y0)).length =
      objects.length :=
    length_filterMap_of_all_some _ objects hall
  have hmne : objects.filterMap (fun kv => kv.1.y0) ≠ [] := by
    intro h
    rw [h] at hlen
    have : objects = [] := List.eq_nil_of_length_eq_zero hlen.symm
    rw [this] at hm
    simp at hm
  obtain ⟨m, hminv⟩ : ∃ m,
      (objects.filterMap (fun kv => kv.1.y0)).min? = some m := by
    cases hml : objects.filterMap (fun kv => kv.1.y0) with
    | nil => exact absurd hml hmne
    | cons a l => exact ⟨l.foldl min a, rfl⟩
  obtain ⟨hmem, hle⟩ := List.min?_eq_some_iff'.mp hminv
  have hoff : gsYoffset objects = m := by
    simp only [gsYoffset, hminv]
    rw [if_pos ⟨hmne, hlen⟩]
    rfl
  rw [hoff]
  exact hle v (List.mem_filterMap.mpr ⟨kv, hm, hv⟩)

theorem gsYoffset_mem {objects : List (GKey × GObj)} (hne : objects ≠ [])
    (hall : ∀ kv ∈ objects, kv.1.y0.isSome) :
    ∃ kv ∈ objects, kv.1.y0 = some (gsYoffset objects) := by
  have hlen : (objects.filterMap (fun kv => kv.1.y0)).length =
      objects.length :=
    length_filterMap_of_all_some _ objects hall
  have hmne : objects.filterMap (fun kv => kv.1.y0) ≠ [] := by
    intro h
    apply hne
    rw [h] at hlen
    exact List.eq_nil_of_length_eq_zero hlen.symm
  obtain ⟨m, hminv⟩ : ∃ m,
      (objects.filterMap (fun kv => kv.1.y0)).min? = some m := by
    cases hml : objects.filterMap (fun kv => kv.1.y0) with
    | nil => exact absurd hml hmne
    | cons a l => exact ⟨l.foldl min a, rfl⟩
  obtain ⟨hmem, hle⟩ := List.min?_eq_some_iff'.mp hminv
  have hoff : gsYoffset objects = m := by
    simp only [gsYoffset, hminv]
    rw [if_pos ⟨hmne, hlen⟩]
    rfl
  obtain ⟨kv, hkv, hkvy⟩ := List.mem_filterMap.mp hmem
  exact ⟨kv, hkv, by rw [hoff]; exact hkvy⟩

theorem gsXoffset_le {objects : List (GKey × GObj)}
    (hall : ∀ kv ∈ objects, kv.1.x0.isSome) {kv : GKey × GObj}
    (hm : kv ∈ objects) {v : Nat} (hv : kv.1.x0 = some v) :
    gsXoffset objects ≤ v := by
  have hlen : (objects.filterMap (fun kv => kv.1.x0)).length =
      objects.length :=
    length_filterMap_of_all_some _ objects hall
  have hmne : objects.filterMap (fun kv => kv.1.x0) ≠ [] := by
    intro h
    rw [h] at hlen
    have : objects = [] := List.eq_nil_of_length_eq_zero hlen.symm
    rw [this] at hm
    simp at hm
  obtain ⟨m, hminv⟩ : ∃ m,
      (objects.filterMap (fun kv => kv.1.x0)).min? = some m := by
    cases hml : objects.filterMap (fun kv => kv.1.x0) with
    | nil => exact absurd hml hmne
    | cons a l => exact ⟨l.foldl min a, rfl⟩
  obtain ⟨hmem, hle⟩ := List.min?_eq_some_iff'.mp hminv
  have hoff : gsXoffset objects = m := by
    simp only [gsXoffset, hminv]
    rw [if_pos ⟨hmne, hlen⟩]
    rfl
  rw [hoff]
  exact hle v (List.mem_filterMap.mpr ⟨kv, hm, hv⟩)

theorem gsXoffset_mem {objects : List (GKey × GObj)} (hne : objects ≠ [])
    (hall : ∀ kv ∈ objects, kv.1.x0.isSome) :
    ∃ kv ∈ objects, kv.1.x0 = some (gsXoffset objects) := by
  have hlen : (objects.filterMap (fun kv => kv.1.x0)).length =
      objects.length :=
    length_filterMap_of_all_some _ objects hall
  have hmne : objects.filterMap (fun kv => kv.1.x0) ≠ [] := by
    intro h
    apply hne
    rw [h] at hlen
    exact List.eq_nil_of_length_eq_zero hlen.symm
  obtain ⟨m, hminv⟩ : ∃ m,
      (objects.filterMap (fun kv => kv.1.x0)).min? = some m := by
    cases hml : objects.filterMap (fun kv => kv.1.x0) with
    | nil => exact absurd hml hmne
    | cons a l => exact ⟨l.foldl min a, rfl⟩
  obtain ⟨hmem, hle⟩ := List.min?_eq_some_iff'.mp hminv
  have hoff : gsXoffset objects = m := by
    simp only [gsXoffset, hminv]
    rw [if_pos ⟨hmne, hlen⟩]
    rfl
  obtain ⟨kv, hkv, hkvx⟩ := List.mem_filterMap.mp hmem
  exact ⟨kv, hkv, by rw [hoff]; exact hkvx⟩

set_option maxRecDepth 8000
set_option maxHeartbeats 2000000

theorem natLog2_le : ∀ (fuel n k : Nat), n < 2 ^ (k + 1) →
    natLog2 fuel n ≤ k := by
  intro fuel
  induction fuel with
  | zero => intro n k h; simp [natLog2]
  | succ fuel ih =>
      intro n k h
      simp only [natLog2]
      split
      · exact Nat.zero_le k
      · rename_i hn
        have hk : 1 ≤ k := by
          by_contra hk0
          have hk1 : k = 0 := by omega
          subst hk1
          have : (2 : Nat) ^ (0 + 1) = 2 := by norm_num
          rw [this] at h
          omega
        have hn2 : n / 2 < 2 ^ (k - 1 + 1) := by
          rw [Nat.sub_add_cancel hk]
          apply Nat.div_lt_of_lt_mul
          have : (2 : Nat) ^ (k + 1) = 2 * 2 ^ k := by
            rw [Nat.pow_succ, Nat.mul_comm]
          omega
        have := ih (n / 2) (k - 1) hn2
        omega

theorem rne_le {p q m : Nat} (hq : 0 < q) (h : p ≤ q * m) :
    rne p q ≤ m := by
  have hd : p / q ≤ m := by
    calc p / q ≤ (q * m) / q := Nat.div_le_div_right h
    _ = m := Nat.mul_div_cancel_left m hq
  have hmod : q * (p / q) + p % q = p := Nat.div_add_mod p q
  simp only [rne]
  by_cases h1 : 2 * (p % q) < q
  · rw [if_pos h1]
    exact hd
  · rw [if_neg h1]
    have hrpos : 0 < p % q := by omega
    have hlt : p / q < m := by
      rcases Nat.lt_or_ge (p / q) m with h2 | h2
      · exact h2
      · exfalso
        have he : p / q = m := Nat.le_antisymm hd h2
        rw [he] at hmod
        omega
    split
    · omega
    · split
      · omega
      · omega

theorem rne_exact {p q : Nat} (hq : 0 < q) (hdvd : q ∣ p) :
    rne p q = p / q := by
  obtain ⟨c, rfl⟩ := hdvd
  have hr : q * c % q = 0 := Nat.mul_mod_right q c
  simp only [rne, hr]
  simp [hq]

theorem roundFloat_le_pow2 {p q k : Nat} (hq : 0 < q)
    (h : p * 2 ^ 1074 ≤ q * 2 ^ k) : roundFloat p q ≤ 2 ^ k := by
  show rne (p * 2 ^ 1074)
      (q * 2 ^ (floorLog2 (p * 2 ^ 1074 / q) - 52)) *
      2 ^ (floorLog2 (p * 2 ^ 1074 / q) - 52) ≤ 2 ^ k
  set t := floorLog2 (p * 2 ^ 1074 / q) - 52 with ht
  have hdiv : p * 2 ^ 1074 / q ≤ 2 ^ k := by
    calc p * 2 ^ 1074 / q ≤ (q * 2 ^ k) / q := Nat.div_le_div_right h
    _ = 2 ^ k := Nat.mul_div_cancel_left _ hq
  have hflog : floorLog2 (p * 2 ^ 1074 / q) ≤ k := by
    apply natLog2_le
    exact Nat.lt_of_le_of_lt hdiv
      (Nat.pow_lt_pow_right (by norm_num) (Nat.lt_succ_self k))
  have htk : t ≤ k := by omega
  have hrne : rne (p * 2 ^ 1074) (q * 2 ^ t) ≤ 2 ^ (k - t) := by
    apply rne_le (by positivity)
    calc p * 2 ^ 1074 ≤ q * 2 ^ k := h
    _ = q * 2 ^ t * 2 ^ (k - t) := by
      rw [Nat.mul_assoc, ← Nat.pow_add, Nat.add_sub_cancel' htk]
  calc rne (p * 2 ^ 1074) (q * 2 ^ t) * 2 ^ t ≤
      2 ^ (k - t) * 2 ^ t := Nat.mul_le_mul_right _ hrne
  _ = 2 ^ k := by rw [← Nat.pow_add, Nat.sub_add_cancel htk]

theorem roundFloat_exact {n : Nat} (h : n < 2 ^ 53) :
    roundFloat n 1 = n * 2 ^ 1074 := by
  show rne (n * 2 ^ 1074)
      (1 * 2 ^ (floorLog2 (n * 2 ^ 1074 / 1) - 52)) *
      2 ^ (floorLog2 (n * 2 ^ 1074 / 1) - 52) = n * 2 ^ 1074
  set t := floorLog2 (n * 2 ^ 1074 / 1) - 52 with ht
  have he : floorLog2 (n * 2 ^ 1074 / 1) ≤ 1126 := by
    apply natLog2_le
    rw [Nat.div_one]
    calc n * 2 ^ 1074 < 2 ^ 53 * 2 ^ 1074 :=
      mul_lt_mul_of_pos_right h (by positivity)
    _ ≤ 2 ^ (1126 + 1) := by
      rw [← Nat.pow_add]
  have htle : t ≤ 1074 := by omega
  have hdvd : (1 * 2 ^ t) ∣ n * 2 ^ 1074 := by
    rw [Nat.one_mul]
    exact Dvd.dvd.mul_left (pow_dvd_pow 2 htle) n
  rw [rne_exact (by positivity) hdvd]
  rw [Nat.one_mul]
  exact Nat.div_mul_cancel (Dvd.dvd.mul_left (pow_dvd_pow 2 htle) n)

theorem pyFloat_exact {n : Nat} (h : n < 2 ^ 53) :
    pyFloat n = .ok (n * 2 ^ 1074) := by
  have hb : n * 2 ^ 1074 < 2 ^ 2098 := by
    calc n * 2 ^ 1074 < 2 ^ 53 * 2 ^ 1074 :=
      Nat.mul_lt_mul_of_lt_of_le h (Nat.le_refl _) (by positivity)
    _ ≤ 2 ^ 2098 := by
      rw [← Nat.pow_add]
      exact Nat.pow_le_pow_right (by norm_num) (by norm_num)
  simp only [pyFloat, roundFloat_exact h]
  rw [if_pos hb]

theorem pyScale_ok {sub total : Nat} (h1 : 0 < total)
    (h2 : total < 2 ^ 53) (h3 : sub < 2 ^ 53) :
    pyScale sub total =
      .ok (roundFloat (sub * 2 ^ 1074) (total * 2 ^ 1074)) := by
  unfold pyScale
  rw [pyFloat_exact h2, pyFloat_exact h3]
  show (if total * 2 ^ 1074 = 0 then
      (.error "ZeroDivisionError: float division by zero" :
        Except String Nat)
    else .ok (roundFloat (sub * 2 ^ 1074) (total * 2 ^ 1074))) =
    .ok (roundFloat (sub * 2 ^ 1074) (total * 2 ^ 1074))
  rw [if_neg (Nat.mul_ne_zero (by omega) (by positivity))]

theorem pyScale_le {sub total : Nat} (h1 : 0 < total)
    (h3 : sub < 2 ^ 53) :
    roundFloat (sub * 2 ^ 1074) (total * 2 ^ 1074) ≤ 2 ^ 1128 := by
  apply roundFloat_le_pow2 (by positivity)
  calc sub * 2 ^ 1074 * 2 ^ 1074 ≤ 2 ^ 53 * 2 ^ 1074 * 2 ^ 1074 :=
    Nat.mul_le_mul_right _ (Nat.mul_le_mul_right _ (Nat.le_of_lt h3))
  _ ≤ 1 * (2 ^ 1074 * 2 ^ 1128) := by
    rw [Nat.one_mul, ← Nat.pow_add, ← Nat.pow_add, ← Nat.pow_add]
    exact Nat.pow_le_pow_right (by norm_num) (by norm_num)
  _ ≤ total * (2 ^ 1074 * 2 ^ 1128) :=
    Nat.mul_le_mul_right _ (Nat.one_le_iff_ne_zero.mpr (by omega))
  _ = total * 2 ^ 1074 * 2 ^ 1128 := by rw [Nat.mul_assoc]

theorem pyScaleInt_ok {v scale : Nat} (hv : v < 2 ^ 53)
    (hs : scale ≤ 2 ^ 1128) : ∃ r, pyScaleInt v scale = .ok r := by
  have hb : roundFloat (v * 2 ^ 1074 * scale) (2 ^ 2148) ≤ 2 ^ 1181 := by
    apply roundFloat_le_pow2 (by positivity)
    calc v * 2 ^ 1074 * scale * 2 ^ 1074 ≤
        2 ^ 53 * 2 ^ 1074 * 2 ^ 1128 * 2 ^ 1074 :=
      Nat.mul_le_mul_right _ (Nat.mul_le_mul
        (Nat.mul_le_mul_right _ (Nat.le_of_lt hv)) hs)
    _ = 2 ^ 2148 * 2 ^ 1181 := by
      rw [← Nat.pow_add, ← Nat.pow_add, ← Nat.pow_add, ← Nat.pow_add]
  refine ⟨roundFloat (v * 2 ^ 1074 * scale) (2 ^ 2148) / 2 ^ 1074, ?_⟩
  unfold pyScaleInt
  rw [pyFloat_exact hv]
  show (if roundFloat (v * 2 ^ 1074 * scale) (2 ^ 2148) < 2 ^ 2098 then
      (.ok (roundFloat (v * 2 ^ 1074 * scale) (2 ^ 2148) / 2 ^ 1074) :
        Except String Nat)
    else .error "OverflowError: cannot convert float infinity to integer") =
    .ok (roundFloat (v * 2 ^ 1074 * scale) (2 ^ 2148) / 2 ^ 1074)
  rw [if_pos (Nat.lt_of_le_of_lt hb
    (Nat.pow_lt_pow_right (by norm_num) (by norm_num)))]

theorem scaleOpt_ok {w : Option Nat} {scale : Nat}
    (hw : w.getD 0 < 2 ^ 53) (hs : scale ≤ 2 ^ 1128) :
    ∃ r, scaleOpt w scale = .ok r := by
  cases w with
  | none => exact ⟨none, rfl⟩
  | some v =>
      by_cases hv0 : v = 0
      · subst hv0
        refine ⟨some 0, ?_⟩
        unfold scaleOpt
        dsimp only
        rw [if_neg (by omega)]
      · obtain ⟨r, hr⟩ := pyScaleInt_ok (by simpa using hw) hs
        refine ⟨some r, ?_⟩
        unfold scaleOpt
        dsimp only
        rw [if_pos hv0, hr]

theorem foldMax_le {l : List Nat} {b : Nat} (h : ∀ v ∈ l, v ≤ b) :
    foldMax l ≤ b := by
  induction l with
  | nil => simp [foldMax]
  | cons a l ih =>
      simp only [foldMax, List.foldr_cons]
      have ha := h a (List.mem_cons_self a l)
      have hl : foldMax l ≤ b :=
        ih (fun v hv => h v (List.mem_cons_of_mem a hv))
      simp only [foldMax] at hl
      exact max_le ha hl

theorem gsNcols_adjusted_le (g : GridSpec) (pairs : List (GKey × GObj))
    (hin : ∀ p ∈ pairs, p ∈ g.objects) (yoff xoff : Nat) :
    gsNcols (dedupPairs ((odOfList pairs).map
      (fun kv => (adjustKey yoff xoff kv.1, kv.2)))) ≤
      gsNcols g.objects := by
  apply foldMax_le
  intro v hv
  obtain ⟨kv, hkv, hx1⟩ := List.mem_filterMap.mp hv
  obtain ⟨kv0, hkv0, heq⟩ := List.mem_map.mp (dedupPairs_mem.mp hkv)
  have hx1' : kv0.1.x1.map (fun w => w - xoff) = some v := by
    rw [← heq] at hx1
    exact hx1
  cases hw : kv0.1.x1 with
  | none => rw [hw] at hx1'; cases hx1'
  | some w =>
      rw [hw] at hx1'
      injection hx1' with hx1'
      have hmem : kv0 ∈ g.objects := hin kv0 (odOfList_subset hkv0)
      calc v = w - xoff := hx1'.symm
      _ ≤ w := Nat.sub_le w xoff
      _ ≤ gsNcols g.objects := x1_le_ncols hmem hw

theorem gsNrows_adjusted_le (g : GridSpec) (pairs : List (GKey × GObj))
    (hin : ∀ p ∈ pairs, p ∈ g.objects) (yoff xoff : Nat) :
    gsNrows (dedupPairs ((odOfList pairs).map
      (fun kv => (adjustKey yoff xoff kv.1, kv.2)))) ≤
      gsNrows g.objects := by
  apply foldMax_le
  intro v hv
  obtain ⟨kv, hkv, hy1⟩ := List.mem_filterMap.mp hv
  obtain ⟨kv0, hkv0, heq⟩ := List.mem_map.mp (dedupPairs_mem.mp hkv)
  have hy1' : kv0.1.y1.map (fun w => w - yoff) = some v := by
    rw [← heq] at hy1
    exact hy1
  cases hw : kv0.1.y1 with
  | none => rw [hw] at hy1'; cases hy1'
  | some w =>
      rw [hw] at hy1'
      injection hy1' with hy1'
      have hmem : kv0 ∈ g.objects := hin kv0 (odOfList_subset hkv0)
      calc v = w - yoff := hy1'.symm
      _ ≤ w := Nat.sub_le w yoff
      _ ≤ gsNrows g.objects := y1_le_nrows hmem hw

/-- Fixture grid for the C7 counterexample: an open-ended key on a
non-square (2 rows, 3 columns) grid. -/
def c7BadGrid : GridSpec :=
  { objects := [({ y0 := some 0, x0 := some 0, y1 := some 1, x1 := some 3 },
                 { id := 1 }),
                ({ y0 := some 1, x0 := some 0, y1 := some 2, x1 := none },
                 { id := 2 })],
    width := some 600, height := some 600,
    maxWidth := none, maxHeight := none }

/-- Claim C7 is false as stated: `c7BadGrid`'s regions fully cover the
selection `[0:2, 0:3]` under the resolved-rectangle semantics the spec
describes, yet slice extraction raises (`TypeError`) instead of
returning a sub-grid, because the cell-fill loop resolves the open
column end to `nrows = 2` and leaves cell `(1, 2)` unowned. -/
theorem c7_open_key_extraction_raises :
    (∀ c ∈ cellsOf (selRange (some 0) (some 2) (gsNrows c7BadGrid.objects))
        (selRange (some 0) (some 3) (gsNcols c7BadGrid.objects)),
      occupiedB c7BadGrid c.1 c.2 = true) ∧
    isErr (getItem c7BadGrid (.slice (some 0) (some 2))
      (.slice (some 0) (some 3))) = true := by
  exact ⟨by decide, by decide⟩

/-- The 5x5 fixture of the claim's example: unit regions covering rows
0-4, columns 0-4 (child ids `10*y + x`). -/
def c7Cover5 : GridSpec :=
  { objects := ((List.range 5).map (fun y => (List.range 5).map (fun x =>
      (({ y0 := some y, x0 := some x, y1 := some (y + 1),
          x1 := some (x + 1) } : GKey),
       ({ id := 10 * y + x } : GObj))))).flatten,
    width := some 600, height := some 600,
    maxWidth := none, maxHeight := none }

/-- The expected result of extracting `[0:2, 0:2]` from `c7Cover5`: a
2x2 sub-grid with proportionally scaled size. -/
def c7Sub5 : GridSpec :=
  { objects := [({ y0 := some 0, x0 := some 0, y1 := some 1, x1 := some 1 },
                 { id := 0 }),
                ({ y0 := some 0, x0 := some 1, y1 := some 1, x1 := some 2 },
                 { id := 1 }),
                ({ y0 := some 1, x0 := some 0, y1 := some 2, x1 := some 1 },
                 { id := 10 }),
                ({ y0 := some 1, x0 := some 1, y1 := some 2, x1 := some 2 },
                 { id := 11 })],
    width := some 240, height := some 240,
    maxWidth := none, maxHeight := none }

theorem subGridOf_ok (g : GridSpec) (pairs : List (GKey × GObj))
    (hin : ∀ p ∈ pairs, p ∈ g.objects)
    (hrows : 0 < gsNrows g.objects) (hcols : 0 < gsNcols g.objects)
    (hr53 : gsNrows g.objects < 2 ^ 53)
    (hc53 : gsNcols g.objects < 2 ^ 53)
    (hw53 : g.width.getD 0 < 2 ^ 53) (hh53 : g.height.getD 0 < 2 ^ 53)
    (hmw53 : g.maxWidth.getD 0 < 2 ^ 53)
    (hmh53 : g.maxHeight.getD 0 < 2 ^ 53) :
    ∃ gs ws hsc,
      subGridOf g pairs = .ok gs ∧
      gs.objects = dedupPairs ((odOfList pairs).map
        (fun kv => (adjustKey (gsYoffset (odOfList pairs))
          (gsXoffset (odOfList pairs)) kv.1, kv.2))) ∧
      pyScale (gsNcols gs.objects) (gsNcols g.objects) = .ok ws ∧
      pyScale (gsNrows gs.objects) (gsNrows g.objects) = .ok hsc ∧
      scaleOpt g.width ws = .ok gs.width ∧
      scaleOpt g.height hsc = .ok gs.height ∧
      scaleOpt g.maxWidth ws = .ok gs.maxWidth ∧
      scaleOpt g.maxHeight hsc = .ok gs.maxHeight := by
  set A := dedupPairs ((odOfList pairs).map
      (fun kv => (adjustKey (gsYoffset (odOfList pairs))
        (gsXoffset (odOfList pairs)) kv.1, kv.2))) with hA
  have hsubx : gsNcols A ≤ gsNcols g.objects := by
    rw [hA]
    exact gsNcols_adjusted_le g pairs hin _ _
  have hsuby : gsNrows A ≤ gsNrows g.objects := by
    rw [hA]
    exact gsNrows_adjusted_le g pairs hin _ _
  have hws := pyScale_ok hcols hc53 (Nat.lt_of_le_of_lt hsubx hc53)
  have hwsle := pyScale_le hcols (Nat.lt_of_le_of_lt hsubx hc53)
  have hhs := pyScale_ok hrows hr53 (Nat.lt_of_le_of_lt hsuby hr53)
  have hhsle := pyScale_le hrows (Nat.lt_of_le_of_lt hsuby hr53)
  obtain ⟨wv, hwv⟩ := scaleOpt_ok hw53 hwsle
  obtain ⟨hv2, hhv⟩ := scaleOpt_ok hh53 hhsle
  obtain ⟨mwv, hmwv⟩ := scaleOpt_ok hmw53 hwsle
  obtain ⟨mhv, hmhv⟩ := scaleOpt_ok hmh53 hhsle
  refine ⟨⟨A, wv, hv2, mwv, mhv⟩,
    roundFloat (gsNcols A * 2 ^ 1074) (gsNcols g.objects * 2 ^ 1074),
    roundFloat (gsNrows A * 2 ^ 1074) (gsNrows g.objects * 2 ^ 1074),
    ?_, rfl, hws, hhs, hwv, hhv, hmwv, hmhv⟩
  unfold subGridOf
  dsimp only
  rw [← hA, hws]
  dsimp only
  rw [hhs]
  dsimp only
  rw [hwv]
  dsimp only
  rw [hhv]
  dsimp only
  rw [hmwv]
  dsimp only
  rw [hmhv]

set_option maxRecDepth 8000 in
/-- Claim C7 (amended): restricted to grids all of whose region keys
have concrete bounds - the counterexample shows open-ended keys make
extraction raise through the `__getitem__` axis swap - whose extent is
nonzero (the scale factors divide by it) and, with the grid's size
parameters, below `2 ^ 53` (exactly representable as doubles, keeping
the conversions in range), slice extraction is a projection: it
succeeds and returns a grid holding exactly the regions intersecting
the selection, with each key re-based by per-axis offsets that are the
minimum start bounds over the intersecting regions (0 when nothing
intersects), and with width/height/max_width/max_height scaled by the
per-axis double `sub/float(total)` of the sub-grid's fraction of the
original extent and truncated to int, under IEEE 754 binary64
arithmetic; the claim's 5x5 example yields a 2x2 sub-grid scaled to
240. -/
theorem c7_subgrid_projection :
    (∀ (g : GridSpec) (ay b0 ax bx : Option Nat),
      (∀ kv ∈ g.objects, ConcreteKey kv.1) →
      (g.objects.map Prod.fst).Nodup →
      (∀ kv ∈ g.objects, ∀ kv2 ∈ g.objects, ∀ y, y < gsNrows g.objects →
        ∀ x, x < gsNcols g.objects → gridCovers g kv.1 y x = true →
        gridCovers g kv2.1 y x = true → kv.1 = kv2.1) →
      0 < gsNrows g.objects → 0 < gsNcols g.objects →
      gsNrows g.objects < 2 ^ 53 → gsNcols g.objects < 2 ^ 53 →
      g.width.getD 0 < 2 ^ 53 → g.height.getD 0 < 2 ^ 53 →
      g.maxWidth.getD 0 < 2 ^ 53 → g.maxHeight.getD 0 < 2 ^ 53 →
      (∀ c ∈ cellsOf (selRange ay b0 (gsNrows g.objects))
          (selRange ax bx (gsNcols g.objects)),
        occupiedB g c.1 c.2 = true) →
      ∃ gs yoff xoff,
        getItem g (.slice ay b0) (.slice ax bx) = .ok (.inr gs) ∧
        (∀ k v, ((k, v) ∈ gs.objects ↔
          ∃ kv ∈ g.objects,
            regionIntersects g (selRange ay b0 (gsNrows g.objects))
              (selRange ax bx (gsNcols g.objects)) kv = true ∧
            k = adjustKey yoff xoff kv.1 ∧ v = kv.2)) ∧
        (∀ kv ∈ g.objects,
          regionIntersects g (selRange ay b0 (gsNrows g.objects))
            (selRange ax bx (gsNcols g.objects)) kv = true →
          (∀ v, kv.1.y0 = some v → yoff ≤ v) ∧
          (∀ v, kv.1.x0 = some v → xoff ≤ v)) ∧
        ((∃ kv ∈ g.objects,
            regionIntersects g (selRange ay b0 (gsNrows g.objects))
              (selRange ax bx (gsNcols g.objects)) kv = true) →
          (∃ kv ∈ g.objects,
            regionIntersects g (selRange ay b0 (gsNrows g.objects))
              (selRange ax bx (gsNcols g.objects)) kv = true ∧
            kv.1.y0 = some yoff) ∧
          (∃ kv ∈ g.objects,
            regionIntersects g (selRange ay b0 (gsNrows g.objects))
              (selRange ax bx (gsNcols g.objects)) kv = true ∧
            kv.1.x0 = some xoff)) ∧
        ((¬ ∃ kv ∈ g.objects,
            regionIntersects g (selRange ay b0 (gsNrows g.objects))
              (selRange ax bx (gsNcols g.objects)) kv = true) →
          yoff = 0 ∧ xoff = 0) ∧
        ∃ ws hsc,
          pyScale (gsNcols gs.objects) (gsNcols g.objects) = .ok ws ∧
          pyScale (gsNrows gs.objects) (gsNrows g.objects) = .ok hsc ∧
          scaleOpt g.width ws = .ok gs.width ∧
          scaleOpt g.height hsc = .ok gs.height ∧
          scaleOpt g.maxWidth ws = .ok gs.maxWidth ∧
          scaleOpt g.maxHeight hsc = .ok gs.maxHeight) ∧
    getItem c7Cover5 (.slice (some 0) (some 2))
      (.slice (some 0) (some 2)) = .ok (.inr c7Sub5) ∧
    gsNrows c7Sub5.objects = 2 ∧ gsNcols c7Sub5.objects = 2 := by
  refine ⟨?_, rfl, rfl, rfl⟩
  intro g ay b0 ax bx hconc hkeys hdisj hrows hcols hr53 hc53 hw53 hh53
    hmw53 hmh53 hcov
  have hOOB : fillOOB g = false := fillOOB_false_of_concrete g hconc
  have hrowlt : ∀ y ∈ selRange ay b0 (gsNrows g.objects),
      y < gsNrows g.objects := by
    intro y hy
    exact Nat.lt_of_lt_of_le (mem_natRangeInterval.mp hy).2
      (Nat.min_le_right _ _)
  have hcollt : ∀ x ∈ selRange ax bx (gsNcols g.objects),
      x < gsNcols g.objects := by
    intro x hx
    exact Nat.lt_of_lt_of_le (mem_natRangeInterval.mp hx).2
      (Nat.min_le_right _ _)
  have huniq : ∀ y x, y < gsNrows g.objects → x < gsNcols g.objects →
      ∀ kv ∈ g.objects, fillCovers g kv.1 y x = true →
      ∀ kv2 ∈ g.objects, fillCovers g kv2.1 y x = true → kv2 = kv := by
    intro y x hy hx kv hkv hckv kv2 hkv2 hckv2
    have e1 : gridCovers g kv.1 y x = true := by
      rw [← fillCovers_eq_gridCovers_of_concrete g kv.1 (hconc kv hkv) y x]
      exact hckv
    have e2 : gridCovers g kv2.1 y x = true := by
      rw [← fillCovers_eq_gridCovers_of_concrete g kv2.1
        (hconc kv2 hkv2) y x]
      exact hckv2
    exact entry_eq_of_key_eq g.objects hkeys kv2 hkv2 kv hkv
      (hdisj kv2 hkv2 kv hkv y hy x hx e2 e1)
  have hall : ∀ c ∈ cellsOf (selRange ay b0 (gsNrows g.objects))
      (selRange ax bx (gsNcols g.objects)),
      (ownerCell g c.1 c.2).isSome := by
    intro c hc
    have hocc := hcov c hc
    simp only [occupiedB, List.any_eq_true] at hocc
    obtain ⟨kv, hkv, hgc⟩ := hocc
    apply ownerCell_isSome_of_covered
    refine ⟨kv, hkv, ?_⟩
    rw [fillCovers_eq_gridCovers_of_concrete g kv.1 (hconc kv hkv)]
    exact hgc
  obtain ⟨pairs, hpairs⟩ := collectOwners_ok_of_all g _ hall
  have hcell_bounds : ∀ c ∈ cellsOf (selRange ay b0 (gsNrows g.objects))
      (selRange ax bx (gsNcols g.objects)),
      c.1 < gsNrows g.objects ∧ c.2 < gsNcols g.objects := by
    intro c hc
    obtain ⟨c1, c2⟩ := c
    have hm := mem_cellsOf.mp hc
    exact ⟨hrowlt c1 hm.1, hcollt c2 hm.2⟩
  have hpair_mem : ∀ kv, kv ∈ pairs ↔ kv ∈ g.objects ∧
      regionIntersects g (selRange ay b0 (gsNrows g.objects))
        (selRange ax bx (gsNcols g.objects)) kv = true := by
    intro kv
    rw [collectOwners_mem g _ pairs hpairs kv]
    constructor
    · rintro ⟨c, hc, ho⟩
      obtain ⟨hm, hfc⟩ := ownerCell_some g c.1 c.2 kv ho
      refine ⟨hm, ?_⟩
      simp only [regionIntersects, List.any_eq_true]
      refine ⟨c, hc, ?_⟩
      rw [← fillCovers_eq_gridCovers_of_concrete g kv.1 (hconc kv hm)]
      exact hfc
    · rintro ⟨hm, hint⟩
      simp only [regionIntersects, List.any_eq_true] at hint
      obtain ⟨c, hc, hgc⟩ := hint
      have hb := hcell_bounds c hc
      have hfc : fillCovers g kv.1 c.1 c.2 = true := by
        rw [fillCovers_eq_gridCovers_of_concrete g kv.1 (hconc kv hm)]
        exact hgc
      refine ⟨c, hc, ?_⟩
      exact ownerCell_unique g c.1 c.2 kv g.objects none hm hfc
        (fun kv2 h2 hc2 => huniq c.1 c.2 hb.1 hb.2 kv hm hfc kv2 h2 hc2)
  have hpairs_in : ∀ p ∈ pairs, p ∈ g.objects := by
    intro p hp
    exact ((hpair_mem p).mp hp).1
  have hpairs_keyed : ∀ p ∈ pairs, ∀ q ∈ pairs, p.1 = q.1 → p = q := by
    intro p hp q hq h
    exact entry_eq_of_key_eq g.objects hkeys p (hpairs_in p hp)
      q (hpairs_in q hq) h
  have hsub_mem : ∀ kv, kv ∈ odOfList pairs ↔ kv ∈ g.objects ∧
      regionIntersects g (selRange ay b0 (gsNrows g.objects))
        (selRange ax bx (gsNcols g.objects)) kv = true := by
    intro kv
    constructor
    · intro h
      exact (hpair_mem kv).mp (odOfList_subset h)
    · intro h
      exact odOfList_mem_of_mem hpairs_keyed ((hpair_mem kv).mpr h)
  have hsub_some_y : ∀ kv ∈ odOfList pairs, kv.1.y0.isSome := by
    intro kv h
    exact (hconc kv ((hsub_mem kv).mp h).1).1
  have hsub_some_x : ∀ kv ∈ odOfList pairs, kv.1.x0.isSome := by
    intro kv h
    exact (hconc kv ((hsub_mem kv).mp h).1).2.1
  obtain ⟨gsV, wsV, hscV, hsubok, hobjV, hws, hhs, hwv, hhv, hmwv, hmhv⟩ :=
    subGridOf_ok g pairs hpairs_in hrows hcols hr53 hc53 hw53 hh53
      hmw53 hmh53
  refine ⟨gsV, gsYoffset (odOfList pairs),
    gsXoffset (odOfList pairs), ?_, ?_, ?_, ?_, ?_,
    wsV, hscV, hws, hhs, hwv, hhv, hmwv, hmhv⟩
  · simp only [getItem, hOOB, Bool.false_eq_true, if_false, resolveSel,
      getItemSlicePart, hpairs, hsubok]
  · intro k v
    rw [hobjV, dedupPairs_mem]
    constructor
    · intro h
      obtain ⟨kv, hkv, he⟩ := List.mem_map.mp h
      obtain ⟨hm, hint⟩ := (hsub_mem kv).mp hkv
      injection he with he1 he2
      subst he1
      subst he2
      exact ⟨kv, hm, hint, rfl, rfl⟩
    · rintro ⟨kv, hm, hint, hk, hv⟩
      subst hk
      subst hv
      exact List.mem_map.mpr ⟨kv, (hsub_mem kv).mpr ⟨hm, hint⟩, rfl⟩
  · intro kv hm hint
    have hkv_sub : kv ∈ odOfList pairs := (hsub_mem kv).mpr ⟨hm, hint⟩
    constructor
    · intro v hv
      exact gsYoffset_le hsub_some_y hkv_sub hv
    · intro v hv
      exact gsXoffset_le hsub_some_x hkv_sub hv
  · rintro ⟨kv, hm, hint⟩
    have hkv_sub : kv ∈ odOfList pairs := (hsub_mem kv).mpr ⟨hm, hint⟩
    have hne : odOfList pairs ≠ [] := by
      intro h
      rw [h] at hkv_sub
      simp at hkv_sub
    constructor
    · obtain ⟨kv0, hkv0, he⟩ := gsYoffset_mem hne hsub_some_y
      obtain ⟨hm0, hint0⟩ := (hsub_mem kv0).mp hkv0
      exact ⟨kv0, hm0, hint0, he⟩
    · obtain ⟨kv0, hkv0, he⟩ := gsXoffset_mem hne hsub_some_x
      obtain ⟨hm0, hint0⟩ := (hsub_mem kv0).mp hkv0
      exact ⟨kv0, hm0, hint0, he⟩
  · intro hnone
    have hemp : odOfList pairs = [] := by
      cases hs : odOfList pairs with
      | nil => rfl
      | cons kv l =>
          exfalso
          apply hnone
          have hkv : kv ∈ odOfList pairs := by
            rw [hs]
            exact List.mem_cons_self kv l
          obtain ⟨hm, hint⟩ := (hsub_mem kv).mp hkv
          exact ⟨kv, hm, hint⟩
    rw [hemp]
    exact ⟨by simp [gsYoffset], by simp [gsXoffset]⟩

/-- Fixture grid for the C7 witness: two fully-bounded row regions on a
2x2 grid. -/
def c7W : GridSpec :=
  { objects := [({ y0 := some 0, x0 := some 0, y1 := some 1, x1 := some 2 },
                 { id := 1 }),
                ({ y0 := some 1, x0 := some 0, y1 := some 2, x1 := some 2 },
                 { id := 2 })],
    width := some 600, height := some 600,
    maxWidth := none, maxHeight := none }

/-- Witness for claim C7's amended theorem: extracting `[0:1, 0:2]` from
the fully covered 2x2 grid `c7W`. -/
theorem c7_subgrid_projection_witness :
    ∃ gs yoff xoff,
      getItem c7W (.slice (some 0) (some 1)) (.slice (some 0) (some 2)) =
        .ok (.inr gs) ∧
      (∀ k v, ((k, v) ∈ gs.objects ↔
        ∃ kv ∈ c7W.objects,
          regionIntersects c7W (selRange (some 0) (some 1)
            (gsNrows c7W.objects))
            (selRange (some 0) (some 2) (gsNcols c7W.objects)) kv = true ∧
          k = adjustKey yoff xoff kv.1 ∧ v = kv.2)) ∧
      (∀ kv ∈ c7W.objects,
        regionIntersects c7W (selRange (some 0) (some 1)
          (gsNrows c7W.objects))
          (selRange (some 0) (some 2) (gsNcols c7W.objects)) kv = true →
        (∀ v, kv.1.y0 = some v → yoff ≤ v) ∧
        (∀ v, kv.1.x0 = some v → xoff ≤ v)) ∧
      ((∃ kv ∈ c7W.objects,
          regionIntersects c7W (selRange (some 0) (some 1)
            (gsNrows c7W.objects))
            (selRange (some 0) (some 2) (gsNcols c7W.objects)) kv =
            true) →
        (∃ kv ∈ c7W.objects,
          regionIntersects c7W (selRange (some 0) (some 1)
            (gsNrows c7W.objects))
            (selRange (some 0) (some 2) (gsNcols c7W.objects)) kv =
            true ∧ kv.1.y0 = some yoff) ∧
        (∃ kv ∈ c7W.objects,
          regionIntersects c7W (selRange (some 0) (some 1)
            (gsNrows c7W.objects))
            (selRange (some 0) (some 2) (gsNcols c7W.objects)) kv =
            true ∧ kv.1.x0 = some xoff)) ∧
      ((¬ ∃ kv ∈ c7W.objects,
          regionIntersects c7W (selRange (some 0) (some 1)
            (gsNrows c7W.objects))
            (selRange (some 0) (some 2) (gsNcols c7W.objects)) kv =
            true) → yoff = 0 ∧ xoff = 0) ∧
      ∃ ws hsc,
        pyScale (gsNcols gs.objects) (gsNcols c7W.objects) = .ok ws ∧
        pyScale (gsNrows gs.objects) (gsNrows c7W.objects) = .ok hsc ∧
        scaleOpt c7W.width ws = .ok gs.width ∧
        scaleOpt c7W.height hsc = .ok gs.height ∧
        scaleOpt c7W.maxWidth ws = .ok gs.maxWidth ∧
        scaleOpt c7W.maxHeight hsc = .ok gs.maxHeight :=
  c7_subgrid_projection.1 c7W (some 0) (some 1) (some 0) (some 2)
    (by decide) (by decide) (by decide) (by decide) (by decide)
    (by decide) (by decide) (by decide) (by decide) (by decide)
    (by decide) (by decide)

end PanelLayout
